import Mathlib

/-!
# Tunnel engine of i2pd (`Tunnel.cpp`)

A shallow embedding of the tunnel build-response handling and of the tunnel
manager (`i2p::tunnel::Tunnel`, `i2p::tunnel::Tunnels`), followed by theorems
about them.

Conventions of the embedding.

* A `TunnelConfig` is the list of its hops from first to last; `hop->next`
  walks the list forwards and `hop->prev` walks it backwards.
* Keys, IVs and identity hashes are byte strings; they are kept as natural
  numbers (the number a byte string spells).
* The payload of a build response is `msg[0]` followed by an array of
  records; the array is the list `records` of what the buffer holds.
  Touching a record the buffer does not hold has no defined behaviour in
  C++ and is `none` here.
* Heap objects carry the identity of their allocation (`ptr`).
* Calls that leave `Tunnel.cpp` (pool callbacks, `Build` sending a message)
  are appended to a trace of events.
-/

namespace i2p
namespace tunnel

/-! ## Hops, configurations, tunnels -/

/-- AES key or IV material, as the number its bytes spell. -/
abbrev AESKey := Nat

/-- Identity hash of a router or of a local destination. -/
abbrev IdentHash := Nat

/-- State of `i2p::crypto::TunnelDecryption` (aes.h): the layer key and the IV
key it was last loaded with, `none` for a cipher that was never given keys. -/
structure TunnelDecryption where
  keys : Option (AESKey × AESKey)
  deriving DecidableEq, Repr

/-- The call `decryption.SetKeys (layerKey, ivKey)`: load both keys. -/
def TunnelDecryption.SetKeys (_d : TunnelDecryption) (layerKey ivKey : AESKey) :
    TunnelDecryption :=
  { keys := some (layerKey, ivKey) }

/-- One hop of a tunnel configuration (`TunnelHopConfig`); the `next` and `prev`
links are the position of the hop in the list that holds it. -/
structure TunnelHopConfig where
  router : IdentHash
  tunnelID : Nat
  nextRouter : IdentHash
  nextTunnelID : Nat
  layerKey : AESKey
  ivKey : AESKey
  replyKey : AESKey
  replyIV : AESKey
  isGateway : Bool
  isEndpoint : Bool
  decryption : TunnelDecryption
  deriving DecidableEq, Repr

/-- A `TunnelConfig`: its hops, first hop at the head. -/
abbrev TunnelConfig := List TunnelHopConfig

/-- The class a tunnel object was constructed as. -/
inductive TunnelKind where
  | inbound
  | outbound
  deriving DecidableEq, Repr

/-- A `Tunnel` object (`InboundTunnel` or `OutboundTunnel`). `m_Config`, `m_Pool`,
`m_IsEstablished` and `m_IsFailed` are the members `Tunnel.cpp` initialises; the
creation time, the tunnel ID and the received-byte counter are the members
behind `GetCreationTime`, `GetTunnelID` and `GetNumReceivedBytes`. -/
structure Tunnel where
  ptr : Nat
  kind : TunnelKind
  m_Config : TunnelConfig
  m_Pool : Option IdentHash
  m_IsEstablished : Bool
  m_IsFailed : Bool
  creationTime : Nat
  tunnelID : Nat
  numReceivedBytes : Nat
  deriving DecidableEq, Repr

/-- The constructor `Tunnel::Tunnel (TunnelConfig * config)`: no pool, not
established, not failed. The remaining members are set by the base classes and
are passed in. -/
def Tunnel.new (ptr : Nat) (kind : TunnelKind) (config : TunnelConfig)
    (creationTime tunnelID : Nat) : Tunnel :=
  { ptr := ptr, kind := kind, m_Config := config, m_Pool := none,
    m_IsEstablished := false, m_IsFailed := false,
    creationTime := creationTime, tunnelID := tunnelID, numReceivedBytes := 0 }

/-! ## Build response -/

/-- Interface of `i2p::crypto::CBCDecryption` (aes.h): a cipher object with a key
and an IV register; `Decrypt` transforms one record and may move the
registers. The class is declared outside `Tunnel.cpp` and is a parameter. -/
structure CBCDecryption (R : Type) where
  State : Type
  init : State
  SetKey : State → AESKey → State
  SetIV : State → AESKey → State
  Decrypt : State → R → State × R

/-- Payload of a tunnel build response: the count byte `msg[0]` and the records
that follow it in the buffer. -/
structure BuildResponseMsg (R : Type) where
  num : Nat
  records : List R

/-- The loop `for (int i = 0; i < num; i++) decryption.Decrypt (record_i)` with
`n` iterations left to run from index `i`; each record is rewritten in place. -/
def decryptLoop {R : Type} (C : CBCDecryption R) :
    Nat → Nat → C.State → List R → Option (C.State × List R)
  | 0, _, st, recs => some (st, recs)
  | n + 1, i, st, recs =>
    match recs[i]? with
    | none => none
    | some r =>
      let out := C.Decrypt st r
      decryptLoop C n (i + 1) out.1 (recs.set i out.2)

/-- The loop `while (hop) { ...; hop = hop->prev; num--; }` of
`HandleTunnelBuildResponse`, over the hops still to visit (last hop first).
`num` is a C `int` and may go below zero, in which case nothing is decrypted. -/
def unwrapLoop {R : Type} (C : CBCDecryption R) :
    List TunnelHopConfig → Int → C.State → List R → Option (C.State × List R)
  | [], _, st, recs => some (st, recs)
  | hop :: prevs, num, st, recs =>
    let st1 := C.SetIV (C.SetKey st hop.replyKey) hop.replyIV
    match decryptLoop C num.toNat 0 st1 recs with
    | none => none
    | some (st2, recs2) => unwrapLoop C prevs (num - 1) st2 recs2

/-- The loop `for (int i = 0; i < msg[0]; i++) if (record->ret) m_IsEstablished =
false;` with `n` iterations left to run from index `i`. -/
def retLoop {R : Type} (ret : R → Nat) : Nat → Nat → List R → Bool → Option Bool
  | 0, _, _, est => some est
  | n + 1, i, recs, est =>
    match recs[i]? with
    | none => none
    | some r => retLoop ret n (i + 1) recs (if ret r ≠ 0 then false else est)

/-- The loop `while (hop) { hop->decryption.SetKeys (hop->layerKey, hop->ivKey);
hop = hop->next; }` from the first hop. -/
def rebindLoop : List TunnelHopConfig → List TunnelHopConfig
  | [] => []
  | hop :: rest =>
    { hop with decryption := hop.decryption.SetKeys hop.layerKey hop.ivKey } ::
      rebindLoop rest

/-- The method `Tunnel::HandleTunnelBuildResponse (uint8_t * msg, size_t len)`.
`ret` reads the `ret` member of an `I2NPBuildResponseRecord`. The result is the
tunnel afterwards, the buffer afterwards and the returned flag. `len` is not
used by the body. -/
def HandleTunnelBuildResponse {R : Type} (C : CBCDecryption R) (ret : R → Nat)
    (t : Tunnel) (msg : BuildResponseMsg R) (_len : Nat) :
    Option (Tunnel × BuildResponseMsg R × Bool) :=
  match unwrapLoop C t.m_Config.reverse (msg.num : Int) C.init msg.records with
  | none => none
  | some (_, recs) =>
    match retLoop ret msg.num 0 recs true with
    | none => none
    | some est =>
      let t1 := { t with m_IsEstablished := est }
      let t2 := if est then { t1 with m_Config := rebindLoop t1.m_Config } else t1
      some (t2, { num := msg.num, records := recs }, est)

/-- An instance of the cipher that leaves every record as it is. -/
def plainCipher (R : Type) : CBCDecryption R :=
  { State := Unit, init := (), SetKey := fun _ _ => (), SetIV := fun _ _ => (),
    Decrypt := fun _ r => ((), r) }

/-- Layout of `I2NPBuildResponseRecord` for concrete runs: a record is its bytes
and `ret` is the last of its 528 bytes. -/
def retByte (r : List Nat) : Nat := r.getD 527 0

/-- A response record of 528 bytes, all zero but the last, which is `ret`. -/
def responseRecord (ret : Nat) : List Nat := List.replicate 527 0 ++ [ret]

/-- A hop with the given reply key and layer keys, everything else zero. -/
def sampleHop (replyKey layerKey ivKey : AESKey) : TunnelHopConfig :=
  { router := 0, tunnelID := 0, nextRouter := 0, nextTunnelID := 0,
    layerKey := layerKey, ivKey := ivKey, replyKey := replyKey, replyIV := 0,
    isGateway := false, isEndpoint := false, decryption := { keys := none } }

/-- A freshly constructed one-hop inbound tunnel. -/
def sampleTunnel : Tunnel := Tunnel.new 0 TunnelKind.inbound [sampleHop 7 11 13] 0 0

/-! ## Tables of the manager -/

/-- A `std::map` with 32-bit keys: its entries in iteration order, which is
strictly ascending key order. -/
structure StdMap (V : Type) where
  entries : List (Nat × V)
  ordered : entries.Pairwise (fun a b => a.1 < b.1)

/-- The empty map. -/
def StdMap.empty {V : Type} : StdMap V := ⟨[], List.Pairwise.nil⟩

/-- The call `m.find (k)`, as the mapped value when the iterator is not `end ()`. -/
def StdMap.find {V : Type} (m : StdMap V) (k : Nat) : Option V :=
  (m.entries.find? (fun e => e.1 == k)).map Prod.snd

/-- The call `m.erase (it)` for the iterator that `find (k)` returned. -/
def StdMap.erase {V : Type} (m : StdMap V) (k : Nat) : StdMap V :=
  ⟨m.entries.eraseP (fun e => e.1 == k), m.ordered.sublist (List.eraseP_sublist _)⟩

/-- Entry list of `m[k] = v`: replace the value under `k` or insert at the place
the key order gives. -/
def insertEntry {V : Type} (k : Nat) (v : V) : List (Nat × V) → List (Nat × V)
  | [] => [(k, v)]
  | e :: rest =>
    if k < e.1 then (k, v) :: e :: rest
    else if k = e.1 then (k, v) :: rest
    else e :: insertEntry k v rest

theorem mem_insertEntry {V : Type} (k : Nat) (v : V) (l : List (Nat × V)) (x : Nat × V)
    (hx : x ∈ insertEntry k v l) : x = (k, v) ∨ x ∈ l := by
  induction l with
  | nil => simp [insertEntry] at hx; exact Or.inl hx
  | cons e rest ih =>
    unfold insertEntry at hx
    split_ifs at hx with h1 h2
    · rcases List.mem_cons.1 hx with h | h
      · exact Or.inl h
      · exact Or.inr h
    · rcases List.mem_cons.1 hx with h | h
      · exact Or.inl h
      · exact Or.inr (List.mem_cons_of_mem _ h)
    · rcases List.mem_cons.1 hx with h | h
      · exact Or.inr (h ▸ List.mem_cons_self _ _)
      · rcases ih h with h3 | h3
        · exact Or.inl h3
        · exact Or.inr (List.mem_cons_of_mem _ h3)

theorem insertEntry_ordered {V : Type} (k : Nat) (v : V) (l : List (Nat × V))
    (hl : l.Pairwise (fun a b => a.1 < b.1)) :
    (insertEntry k v l).Pairwise (fun a b => a.1 < b.1) := by
  induction l with
  | nil => simp [insertEntry]
  | cons e rest ih =>
    have hrest := (List.pairwise_cons.1 hl).2
    have hhead := (List.pairwise_cons.1 hl).1
    unfold insertEntry
    split_ifs with h1 h2
    · refine List.pairwise_cons.2 ⟨?_, hl⟩
      intro a ha
      rcases List.mem_cons.1 ha with h | h
      · subst h; exact h1
      · exact lt_trans h1 (hhead a h)
    · refine List.pairwise_cons.2 ⟨?_, hrest⟩
      intro a ha
      have := hhead a ha
      simpa [h2] using this
    · refine List.pairwise_cons.2 ⟨?_, ih hrest⟩
      intro a ha
      rcases mem_insertEntry k v rest a ha with h | h
      · subst h; show e.1 < k; omega
      · exact hhead a h

/-- The assignment `m[k] = v`. -/
def StdMap.assign {V : Type} (m : StdMap V) (k : Nat) (v : V) : StdMap V :=
  ⟨insertEntry k v m.entries, insertEntry_ordered k v m.entries m.ordered⟩

/-- The call `m.size ()`. -/
def StdMap.size {V : Type} (m : StdMap V) : Nat := m.entries.length

/-- The call `m.empty ()`. -/
def StdMap.isEmpty {V : Type} (m : StdMap V) : Bool := m.entries.isEmpty

/-- A `TransitTunnel`, as far as the manager looks at it. -/
structure TransitTunnel where
  tunnelID : Nat
  creationTime : Nat
  deriving DecidableEq, Repr

/-- A `TunnelPool`, known to the manager by the identity hash of its local
destination (`GetIdentHash`). -/
structure TunnelPool where
  ident : IdentHash
  deriving DecidableEq, Repr

/-- Calls that leave `Tunnel.cpp`, in the order they are made. -/
inductive Event where
  | TunnelExpired (pool : IdentHash) (t : Tunnel)
  | TunnelCreated (pool : IdentHash) (t : Tunnel)
  | Build (t : Tunnel) (replyMsgID : Nat) (outboundTunnel : Option Tunnel)
  | CreateTunnels (pool : IdentHash)
  | TestTunnels (pool : IdentHash)
  deriving DecidableEq, Repr

/-- The members of `Tunnels` that hold tunnels, the reply-ID counter, the supply
of fresh heap objects and the trace of outgoing calls. -/
structure Tunnels where
  m_NextReplyMsgID : Nat
  m_OutboundTunnels : List Tunnel
  m_InboundTunnels : StdMap Tunnel
  m_TransitTunnels : StdMap TransitTunnel
  m_PendingTunnels : StdMap Tunnel
  m_Pools : StdMap TunnelPool
  m_ExploratoryPool : Option TunnelPool
  heapNext : Nat
  trace : List Event

/-- The constructor `Tunnels::Tunnels ()`: empty tables, counter at 555. -/
def Tunnels.fresh : Tunnels :=
  { m_NextReplyMsgID := 555, m_OutboundTunnels := [], m_InboundTunnels := StdMap.empty,
    m_TransitTunnels := StdMap.empty, m_PendingTunnels := StdMap.empty,
    m_Pools := StdMap.empty, m_ExploratoryPool := none, heapNext := 0, trace := [] }

/-- Modelled from the spec: the constant `TUNNEL_EXPIRATION_TIMEOUT` of Tunnel.h,
`EXPIRATION = 600 s`. -/
def TUNNEL_EXPIRATION_TIMEOUT : Nat := 600

/-- What the collaborators answer during one call into the manager: the clock
(`GetSecondsSinceEpoch`, one reading for the whole call), our own router, the
peers `netdb.GetRandomRouter ()` hands out to the inbound and to the outbound
replenishment, the `TunnelConfig` constructor and `Invert` (which draw keys and
IDs), the tunnel ID a new tunnel reports, and the builds a pool asks for in
`CreateTunnels`. -/
structure Env where
  now : Nat
  ownRouter : IdentHash
  inboundPeer : IdentHash
  outboundPeer : IdentHash
  newConfig : List IdentHash → Option TunnelConfig → TunnelConfig
  invert : TunnelConfig → TunnelConfig
  tunnelIDOf : TunnelKind → TunnelConfig → Nat
  poolBuilds : IdentHash → List (TunnelKind × TunnelConfig × Option Tunnel)

/-! ## Lookups -/

/-- The method `Tunnels::GetInboundTunnel`. -/
def GetInboundTunnel (tunnelID : Nat) (s : Tunnels) : Option Tunnel :=
  s.m_InboundTunnels.find tunnelID

/-- The method `Tunnels::GetTransitTunnel`. -/
def GetTransitTunnel (tunnelID : Nat) (s : Tunnels) : Option TransitTunnel :=
  s.m_TransitTunnels.find tunnelID

/-- The method `Tunnels::GetPendingTunnel`: the tunnel found (or null) and the
manager afterwards. -/
def GetPendingTunnel (replyMsgID : Nat) (s : Tunnels) : Option Tunnel × Tunnels :=
  match s.m_PendingTunnels.find replyMsgID with
  | some t => (some t, { s with m_PendingTunnels := s.m_PendingTunnels.erase replyMsgID })
  | none => (none, s)

/-- The loop of `GetNextInboundTunnel` over the entries still to visit, with the
current `tunnel` and `minReceived`. -/
def nextInboundLoop : List (Nat × Tunnel) → Option Tunnel → Nat → Option Tunnel
  | [], tunnel, _ => tunnel
  | it :: rest, tunnel, minReceived =>
    if it.2.m_IsFailed then nextInboundLoop rest tunnel minReceived
    else if tunnel.isNone || it.2.numReceivedBytes < minReceived then
      nextInboundLoop rest (some it.2) it.2.numReceivedBytes
    else nextInboundLoop rest tunnel minReceived

/-- The method `Tunnels::GetNextInboundTunnel`. -/
def GetNextInboundTunnel (s : Tunnels) : Option Tunnel :=
  nextInboundLoop s.m_InboundTunnels.entries none 0

/-- The loop of `GetNextOutboundTunnel` over the tunnels still to visit, with the
counter `i` and the current `tunnel`; `ind` is the index that was drawn. -/
def nextOutboundLoop (ind : Nat) : List Tunnel → Nat → Option Tunnel → Option Tunnel
  | [], _, tunnel => tunnel
  | it :: rest, i, tunnel =>
    if i ≥ ind then some it
    else if !it.m_IsFailed then nextOutboundLoop ind rest (i + 1) (some it)
    else nextOutboundLoop ind rest i tunnel

/-- The method `Tunnels::GetNextOutboundTunnel`; `ind` is the value that
`rnd.GenerateWord32 (0, m_OutboundTunnels.size () - 1)` returned. -/
def GetNextOutboundTunnel (ind : Nat) (s : Tunnels) : Option Tunnel :=
  nextOutboundLoop ind s.m_OutboundTunnels 0 none

/-! ## Building and promoting tunnels -/

/-- The template `Tunnels::CreateTunnel<TTunnel> (config, outboundTunnel)`: construct
the tunnel, file it under the current reply ID, call `Build` with that ID, step
the 32-bit counter. The constructor reads the clock for the creation time. -/
def CreateTunnel (kind : TunnelKind) (config : TunnelConfig) (outboundTunnel : Option Tunnel)
    (env : Env) (s : Tunnels) : Tunnel × Tunnels :=
  let newTunnel := Tunnel.new s.heapNext kind config env.now (env.tunnelIDOf kind config)
  let s1 := { s with heapNext := s.heapNext + 1,
                     m_PendingTunnels := s.m_PendingTunnels.assign s.m_NextReplyMsgID newTunnel }
  let s2 := { s1 with trace := s1.trace ++
                [Event.Build newTunnel s1.m_NextReplyMsgID outboundTunnel] }
  (newTunnel, { s2 with m_NextReplyMsgID := (s2.m_NextReplyMsgID + 1) % 2 ^ 32 })

/-- The method `Tunnels::CreateZeroHopsInboundTunnel`: an inbound build whose only
hop is our own router. -/
def CreateZeroHopsInboundTunnel (env : Env) (s : Tunnels) : Tunnels :=
  (CreateTunnel TunnelKind.inbound (env.newConfig [env.ownRouter] none) none env s).2

/-- The method `Tunnels::CreateTunnelPool`: a new pool, registered under its
identity hash. -/
def CreateTunnelPool (localDestination : IdentHash) (s : Tunnels) : TunnelPool × Tunnels :=
  let pool : TunnelPool := { ident := localDestination }
  (pool, { s with m_Pools := s.m_Pools.assign pool.ident pool })

/-- The method `Tunnels::DeleteTunnelPool`. -/
def DeleteTunnelPool (pool : Option TunnelPool) (s : Tunnels) : Tunnels :=
  match pool with
  | some p => { s with m_Pools := s.m_Pools.erase p.ident }
  | none => s

/-- The method `Tunnels::AddTransitTunnel`. -/
def AddTransitTunnel (tunnel : TransitTunnel) (s : Tunnels) : Tunnels :=
  { s with m_TransitTunnels := s.m_TransitTunnels.assign tunnel.tunnelID tunnel }

/-- The method `Tunnels::AddOutboundTunnel`. -/
def AddOutboundTunnel (newTunnel : Tunnel) (s : Tunnels) : Tunnels :=
  let s1 := { s with m_OutboundTunnels := s.m_OutboundTunnels ++ [newTunnel] }
  match newTunnel.m_Pool with
  | some pool => { s1 with trace := s1.trace ++ [Event.TunnelCreated pool newTunnel] }
  | none => s1

/-- The method `Tunnels::AddInboundTunnel`; `ind` is the index drawn inside
`GetNextOutboundTunnel` when the tunnel has no pool. -/
def AddInboundTunnel (newTunnel : Tunnel) (ind : Nat) (env : Env) (s : Tunnels) : Tunnels :=
  let s1 := { s with m_InboundTunnels :=
                s.m_InboundTunnels.assign newTunnel.tunnelID newTunnel }
  match newTunnel.m_Pool with
  | none =>
    (CreateTunnel TunnelKind.outbound (env.invert newTunnel.m_Config)
      (GetNextOutboundTunnel ind s1) env s1).2
  | some pool => { s1 with trace := s1.trace ++ [Event.TunnelCreated pool newTunnel] }

/-! ## The management tick -/

/-- The call `pool->TunnelExpired (t)` guarded by `if (pool)`. -/
def notifyExpired (t : Tunnel) : List Event :=
  match t.m_Pool with
  | some pool => [Event.TunnelExpired pool t]
  | none => []

/-- The erase loop of `ManageOutboundTunnels` over the list: the tunnels that
stay, in order, and the pool calls made. -/
def expireOutboundLoop (ts : Nat) : List Tunnel → List Tunnel × List Event
  | [] => ([], [])
  | it :: rest =>
    let r := expireOutboundLoop ts rest
    if ts > it.creationTime + TUNNEL_EXPIRATION_TIMEOUT then (r.1, notifyExpired it ++ r.2)
    else (it :: r.1, r.2)

/-- The erase loop of `ManageInboundTunnels` over the map entries: the entries
that stay and the pool calls made. -/
def expireInboundLoop (ts : Nat) : List (Nat × Tunnel) → List (Nat × Tunnel) × List Event
  | [] => ([], [])
  | it :: rest =>
    let r := expireInboundLoop ts rest
    if ts > it.2.creationTime + TUNNEL_EXPIRATION_TIMEOUT then (r.1, notifyExpired it.2 ++ r.2)
    else (it :: r.1, r.2)

/-- The erase loop of `ManageTransitTunnels` over the map entries. -/
def expireTransitLoop (ts : Nat) : List (Nat × TransitTunnel) → List (Nat × TransitTunnel)
  | [] => []
  | it :: rest =>
    if ts > it.2.creationTime + TUNNEL_EXPIRATION_TIMEOUT then expireTransitLoop ts rest
    else it :: expireTransitLoop ts rest

theorem expireInboundLoop_sublist (ts : Nat) (l : List (Nat × Tunnel)) :
    (expireInboundLoop ts l).1.Sublist l := by
  induction l with
  | nil => simp [expireInboundLoop]
  | cons it rest ih =>
    unfold expireInboundLoop
    split_ifs
    · exact ih.cons _
    · exact ih.cons₂ _

theorem expireTransitLoop_sublist (ts : Nat) (l : List (Nat × TransitTunnel)) :
    (expireTransitLoop ts l).Sublist l := by
  induction l with
  | nil => simp [expireTransitLoop]
  | cons it rest ih =>
    unfold expireTransitLoop
    split_ifs
    · exact ih.cons _
    · exact ih.cons₂ _

/-- The method `Tunnels::ManageInboundTunnels`. -/
def ManageInboundTunnels (env : Env) (s : Tunnels) : Tunnels :=
  let ts := env.now
  let r := expireInboundLoop ts s.m_InboundTunnels.entries
  let s1 := { s with
    m_InboundTunnels :=
      ⟨r.1, s.m_InboundTunnels.ordered.sublist (expireInboundLoop_sublist ts _)⟩,
    trace := s.trace ++ r.2 }
  if s1.m_InboundTunnels.isEmpty then
    let s2 := CreateZeroHopsInboundTunnel env s1
    if s2.m_ExploratoryPool.isNone then
      let r2 := CreateTunnelPool env.ownRouter s2
      { r2.2 with m_ExploratoryPool := some r2.1 }
    else s2
  else if s1.m_OutboundTunnels.isEmpty || s1.m_InboundTunnels.size < 5 then
    (CreateTunnel TunnelKind.inbound (env.newConfig [env.inboundPeer] none) none env s1).2
  else s1

/-- The method `Tunnels::ManageOutboundTunnels`. -/
def ManageOutboundTunnels (env : Env) (s : Tunnels) : Tunnels :=
  let ts := env.now
  let r := expireOutboundLoop ts s.m_OutboundTunnels
  let s1 := { s with m_OutboundTunnels := r.1, trace := s.trace ++ r.2 }
  if s1.m_OutboundTunnels.length < 5 then
    match GetNextInboundTunnel s1 with
    | none => s1
    | some inboundTunnel =>
      (CreateTunnel TunnelKind.outbound
        (env.newConfig [env.outboundPeer] (some inboundTunnel.m_Config)) none env s1).2
  else s1

/-- The method `Tunnels::ManageTransitTunnels`; its `ts` is a `uint32_t`. -/
def ManageTransitTunnels (env : Env) (s : Tunnels) : Tunnels :=
  let ts := env.now % 2 ^ 32
  { s with m_TransitTunnels :=
      ⟨expireTransitLoop ts s.m_TransitTunnels.entries,
        s.m_TransitTunnels.ordered.sublist (expireTransitLoop_sublist ts _)⟩ }

/-- Modelled from the spec: `TunnelPool::CreateTunnels` (TunnelPool.cpp), a
call-out hook of the pool; the builds the pool asks for go through
`CreateTunnel`. -/
def poolCreateTunnels (env : Env) (pool : TunnelPool) (s : Tunnels) : Tunnels :=
  (env.poolBuilds pool.ident).foldl
    (fun acc b => (CreateTunnel b.1 b.2.1 b.2.2 env acc).2)
    { s with trace := s.trace ++ [Event.CreateTunnels pool.ident] }

/-- Modelled from the spec: `TunnelPool::TestTunnels` (TunnelPool.cpp), a call-out
hook of the pool. -/
def poolTestTunnels (pool : TunnelPool) (s : Tunnels) : Tunnels :=
  { s with trace := s.trace ++ [Event.TestTunnels pool.ident] }

/-- The method `Tunnels::ManageTunnelPools`. -/
def ManageTunnelPools (env : Env) (s : Tunnels) : Tunnels :=
  s.m_Pools.entries.foldl
    (fun acc it => poolTestTunnels it.2 (poolCreateTunnels env it.2 acc)) s

/-- The method `Tunnels::ManageTunnels`: wipe the pending table, then manage the
inbound, outbound and transit tables and the pools, in that order. -/
def ManageTunnels (env : Env) (s : Tunnels) : Tunnels :=
  let s0 := { s with m_PendingTunnels := StdMap.empty }
  ManageTunnelPools env (ManageTransitTunnels env
    (ManageOutboundTunnels env (ManageInboundTunnels env s0)))

/-! ## Histories -/

/-- Number of `Build` calls in a trace. -/
def countBuilds : List Event → Nat
  | [] => 0
  | Event.Build _ _ _ :: rest => countBuilds rest + 1
  | _ :: rest => countBuilds rest

/-- Number of builds the manager has issued so far. -/
def buildsIssued (s : Tunnels) : Nat := countBuilds s.trace

/-- States a manager gets into from a fresh one by `CreateTunnel`,
`GetPendingTunnel` and `ManageTunnels`. -/
inductive Reachable : Tunnels → Prop where
  | fresh : Reachable Tunnels.fresh
  | createTunnel (kind : TunnelKind) (config : TunnelConfig) (ob : Option Tunnel) (env : Env)
      (s : Tunnels) : Reachable s → Reachable (CreateTunnel kind config ob env s).2
  | getPending (replyMsgID : Nat) (s : Tunnels) :
      Reachable s → Reachable (GetPendingTunnel replyMsgID s).2
  | manage (env : Env) (s : Tunnels) : Reachable s → Reachable (ManageTunnels env s)

/-- A collaborator environment for concrete runs: the clock at `now`, router 1 as
ourselves, peers 2 and 3, configurations of one sample hop per peer, no pool
builds. -/
def sampleEnv (now : Nat) : Env :=
  { now := now, ownRouter := 1, inboundPeer := 2, outboundPeer := 3,
    newConfig := fun peers _ => peers.map (fun p => { sampleHop 7 11 13 with router := p }),
    invert := fun c => c.reverse,
    tunnelIDOf := fun _ c => (c.head?.map (fun h => h.tunnelID)).getD 0,
    poolBuilds := fun _ => [] }

/-! ## Sample states and invariants -/

/-- What a run of `HandleTunnelBuildResponse` leaves in the tunnel when the
flag computed from the records is `est`. -/
def afterResponse (t : Tunnel) (est : Bool) : Tunnel :=
  if est then { t with m_IsEstablished := true, m_Config := rebindLoop t.m_Config }
  else { t with m_IsEstablished := false }

/-- A manager with three builds pending, under the reply IDs 555, 556 and 557. -/
def threePending : Tunnels :=
  (CreateTunnel TunnelKind.outbound [sampleHop 1 2 3] none (sampleEnv 100)
    (CreateTunnel TunnelKind.inbound [sampleHop 4 5 6] none (sampleEnv 100)
      (CreateTunnel TunnelKind.inbound [sampleHop 7 8 9] none (sampleEnv 100)
        Tunnels.fresh).2).2).2

/-- An inbound tunnel for concrete runs, with no pool. -/
def inboundSample (ptr tunnelID received : Nat) (failed : Bool) (created : Nat) : Tunnel :=
  { Tunnel.new ptr TunnelKind.inbound [sampleHop 7 11 13] created tunnelID with
    m_IsEstablished := true, m_IsFailed := failed, numReceivedBytes := received }

/-- An outbound tunnel for concrete runs. -/
def outboundSample (ptr tunnelID : Nat) (failed : Bool) (created : Nat)
    (pool : Option IdentHash) : Tunnel :=
  { Tunnel.new ptr TunnelKind.outbound [sampleHop 7 11 13] created tunnelID with
    m_IsEstablished := true, m_IsFailed := failed, m_Pool := pool }

/-- A manager with three inbound tunnels: a failed one with 0 bytes, and two
live ones with 40 and 25 bytes. -/
def threeInbound : Tunnels :=
  { Tunnels.fresh with
    m_InboundTunnels :=
      ((StdMap.empty.assign 10 (inboundSample 0 10 0 true 0)).assign 20
        (inboundSample 1 20 40 false 0)).assign 30 (inboundSample 2 30 25 false 0) }

/-- A manager whose outbound list is a failed tunnel followed by a live one. -/
def failedThenLive : Tunnels :=
  { Tunnels.fresh with
    m_OutboundTunnels := [outboundSample 0 10 true 0 none, outboundSample 1 20 false 0 none] }

/-- The test `ts > GetCreationTime () + TUNNEL_EXPIRATION_TIMEOUT` of the erase
loops. -/
def expiredAt (ts : Nat) (t : Tunnel) : Bool :=
  decide (ts > t.creationTime + TUNNEL_EXPIRATION_TIMEOUT)

/-- A manager with outbound tunnels created at 0, 500 and 100 in the pool 9 and
inbound tunnels created at 0 (pool 9) and 400 (no pool). -/
def agedTables : Tunnels :=
  { Tunnels.fresh with
    m_OutboundTunnels :=
      [outboundSample 0 10 false 0 (some 9), outboundSample 1 20 false 500 (some 9),
        outboundSample 2 30 false 100 (some 9)],
    m_InboundTunnels :=
      (StdMap.empty.assign 40 { inboundSample 3 40 0 false 0 with m_Pool := some 9 }).assign 50
        (inboundSample 4 50 0 false 400) }

/-- Runs made of `CreateTunnel` calls and of steps that leave the reply-ID
counter, the pending table and the heap supply alone, add no `Build` call to
the trace and add nothing to the outbound list and the inbound table. -/
inductive Steps : Tunnels → Tunnels → Prop where
  | refl (s : Tunnels) : Steps s s
  | create (kind : TunnelKind) (config : TunnelConfig) (ob : Option Tunnel) (env : Env)
      {s s1 : Tunnels} : Steps s s1 → Steps s (CreateTunnel kind config ob env s1).2
  | quiet {s s1 : Tunnels} (s2 : Tunnels) : Steps s s1 →
      s2.m_NextReplyMsgID = s1.m_NextReplyMsgID →
      s2.m_PendingTunnels = s1.m_PendingTunnels →
      s2.heapNext = s1.heapNext →
      (∃ evs, s2.trace = s1.trace ++ evs ∧ countBuilds evs = 0) →
      s2.m_OutboundTunnels.Sublist s1.m_OutboundTunnels →
      s2.m_InboundTunnels.entries.Sublist s1.m_InboundTunnels.entries → Steps s s2

/-- The reply-ID counter is 555 plus the number of builds issued, modulo 2^32,
and every pending entry is filed under the ID of one of the builds numbered
`n0` and up. -/
def CounterInv (n0 : Nat) (s : Tunnels) : Prop :=
  s.m_NextReplyMsgID = (555 + buildsIssued s) % 2 ^ 32 ∧ n0 ≤ buildsIssued s ∧
  ∀ e ∈ s.m_PendingTunnels.entries,
    ∃ j, n0 ≤ j ∧ j < buildsIssued s ∧ e.1 = (555 + j) % 2 ^ 32

/-- Every pending tunnel was allocated at or after `h0` and was built by a
`Build` call made after the trace `pre`. -/
def HeapInv (h0 : Nat) (pre : List Event) (s : Tunnels) : Prop :=
  h0 ≤ s.heapNext ∧ ∃ evs, s.trace = pre ++ evs ∧
    ∀ e ∈ s.m_PendingTunnels.entries, h0 ≤ e.2.ptr ∧ e.2.ptr < s.heapNext ∧
      ∃ ob, Event.Build e.2 e.1 ob ∈ evs

/-! ## Build request -/

/-- Modelled from the spec: the clear-text build request record that
`CreateBuildRequestRecord` (I2NPProtocol.cpp) fills from its arguments: the
hop's router and tunnel ID, the next router and tunnel ID, the four keys, the
message ID to send the reply under (`send_msg_id`) and the role flags. -/
structure I2NPBuildRequestRecordClearText where
  ourIdent : IdentHash
  receiveTunnel : Nat
  nextIdent : IdentHash
  nextTunnel : Nat
  layerKey : AESKey
  ivKey : AESKey
  replyKey : AESKey
  replyIV : AESKey
  nextMessageID : Nat
  isGateway : Bool
  isEndpoint : Bool
  deriving DecidableEq, Repr

/-- The argument list of the call `CreateBuildRequestRecord (...)` that `Build`
makes for `hop`, with `nextMessageID` as its ninth argument. -/
def CreateBuildRequestRecord (hop : TunnelHopConfig) (nextMessageID : Nat) :
    I2NPBuildRequestRecordClearText :=
  { ourIdent := hop.router, receiveTunnel := hop.tunnelID,
    nextIdent := hop.nextRouter, nextTunnel := hop.nextTunnelID,
    layerKey := hop.layerKey, ivKey := hop.ivKey,
    replyKey := hop.replyKey, replyIV := hop.replyIV,
    nextMessageID := nextMessageID,
    isGateway := hop.isGateway, isEndpoint := hop.isEndpoint }

/-- The first loop of `Tunnel::Build` over the hops from `hop` on, in clear
text: the ninth argument is `rnd.GenerateWord32 ()` while the hop has a `next`
and `replyMsgID` for the last hop. `rnd n` is the `n`-th word the generator
hands out and `n` counts the words drawn so far. -/
def requestRecordsLoop (rnd : Nat → Nat) (replyMsgID : Nat) :
    List TunnelHopConfig → Nat → List (TunnelHopConfig × I2NPBuildRequestRecordClearText)
  | [], _ => []
  | hop :: rest, n =>
    if rest.isEmpty then (hop, CreateBuildRequestRecord hop replyMsgID) :: []
    else
      (hop, CreateBuildRequestRecord hop (rnd n)) ::
        requestRecordsLoop rnd replyMsgID rest (n + 1)

/-- The second loop of `Tunnel::Build`, `while (hop) { ...; hop = hop->prev;
ind--; }`, over the hops still to visit (starting at the hop before the last):
load the reply key and IV of the hop, then run
`for (size_t i = ind; i < numRecords; i++) decryption.Decrypt (records[i])`. -/
def preDecryptLoop {R : Type} (C : CBCDecryption R) (numRecords : Nat) :
    List TunnelHopConfig → Nat → C.State → List R → Option (C.State × List R)
  | [], _, st, recs => some (st, recs)
  | hop :: prevs, ind, st, recs =>
    let st1 := C.SetIV (C.SetKey st hop.replyKey) hop.replyIV
    match decryptLoop C (numRecords - ind) ind st1 recs with
    | none => none
    | some (st2, recs2) => preDecryptLoop C numRecords prevs (ind - 1) st2 recs2

/-- Payload of the variable tunnel build message that `Build` sends: the count
byte and the records. -/
structure BuildRequestMsg (R : Type) where
  num : Nat
  records : List R

/-- The method `Tunnel::Build (replyMsgID, outboundTunnel)` up to the message it
hands to the outbound tunnel or to the transports. `elGamal` stands for
`EncryptBuildRequestRecord` (I2NPProtocol.cpp). A configuration without hops
has no last hop to take `prev` of, which has no defined behaviour. -/
def Build {R : Type} (C : CBCDecryption R)
    (elGamal : IdentHash → I2NPBuildRequestRecordClearText → R) (rnd : Nat → Nat)
    (t : Tunnel) (replyMsgID : Nat) : Option (BuildRequestMsg R) :=
  let numRecords := t.m_Config.length
  let records := (requestRecordsLoop rnd replyMsgID t.m_Config 0).map
    (fun hc => elGamal hc.1.router hc.2)
  match t.m_Config.reverse with
  | [] => none
  | _ :: prevs =>
    match preDecryptLoop C numRecords prevs (numRecords - 1) C.init records with
    | none => none
    | some (_, recs) => some { num := numRecords % 256, records := recs }

/-! ## Tunnel data messages -/

/-- An `I2NPMessage` as the tunnel code sees it: the bytes from `GetPayload ()`
on and the `from` member (the tunnel object the message came in through). -/
structure I2NPMessage where
  payload : List Nat
  fromTunnel : Option Nat
  deriving DecidableEq, Repr

/-- Interface of `TunnelDecryption::Decrypt (payload)` (aes.h): the transform a
cipher loaded with the given keys applies to the payload region. The class is
declared outside `Tunnel.cpp` and is a parameter. -/
abbrev LayerTransform := TunnelDecryption → List Nat → List Nat

/-- The loop `while (hop) { hop->decryption.Decrypt (payload); hop = hop->prev; }`
of `EncryptTunnelMsg` over the hops still to visit (last hop first). -/
def encryptLoop (dec : LayerTransform) : List TunnelHopConfig → List Nat → List Nat
  | [], payload => payload
  | hop :: prevs, payload => encryptLoop dec prevs (dec hop.decryption payload)

/-- The method `Tunnel::EncryptTunnelMsg`: the region that starts 4 bytes into
the payload is transformed, the 4 bytes before it stay. -/
def EncryptTunnelMsg (dec : LayerTransform) (t : Tunnel) (tunnelMsg : I2NPMessage) :
    I2NPMessage :=
  { tunnelMsg with
    payload := tunnelMsg.payload.take 4 ++
      encryptLoop dec t.m_Config.reverse (tunnelMsg.payload.drop 4) }

/-- The method `InboundTunnel::HandleTunnelDataMsg`: the tunnel afterwards and
the message it hands to `m_Endpoint.HandleDecryptedTunnelDataMsg`. -/
def HandleTunnelDataMsg (dec : LayerTransform) (t : Tunnel) (msg : I2NPMessage) :
    Tunnel × I2NPMessage :=
  let t1 := if t.m_IsFailed then { t with m_IsFailed := false } else t
  let msg1 := { msg with fromTunnel := some t1.ptr }
  (t1, EncryptTunnelMsg dec t1 msg1)

/-- The value `be32toh (*(uint32_t *)msg->GetPayload ())`: the first four bytes of
the payload read as a big-endian number. -/
def be32 (payload : List Nat) : Nat :=
  payload.getD 0 0 * 2 ^ 24 + payload.getD 1 0 * 2 ^ 16 + payload.getD 2 0 * 2 ^ 8 +
    payload.getD 3 0

/-- Where the worker sends a dequeued message: to an inbound tunnel (with the
tunnel as the call leaves it and the message its endpoint gets), to a transit
tunnel, or to `DeleteI2NPMessage` after the log line. -/
inductive Delivery where
  | inbound (tunnel : Tunnel) (decrypted : I2NPMessage)
  | transit (tunnel : TransitTunnel) (msg : I2NPMessage)
  | dropped (tunnelID : Nat) (msg : I2NPMessage)
  deriving DecidableEq, Repr

/-- The body of the loop `while (msg)` of `Tunnels::Run` for one message. The
inbound tunnel is an object of the table, so what `HandleTunnelDataMsg` does
to it shows under its key. -/
def dispatchMsg (dec : LayerTransform) (msg : I2NPMessage) (s : Tunnels) :
    Delivery × Tunnels :=
  let tunnelID := be32 msg.payload
  match GetInboundTunnel tunnelID s with
  | some tunnel =>
    let r := HandleTunnelDataMsg dec tunnel msg
    (Delivery.inbound r.1 r.2,
      { s with m_InboundTunnels := s.m_InboundTunnels.assign tunnelID r.1 })
  | none =>
    match GetTransitTunnel tunnelID s with
    | some transitTunnel => (Delivery.transit transitTunnel msg, s)
    | none => (Delivery.dropped tunnelID msg, s)

/-- The loop `while (msg) { ...; msg = m_Queue.Get (); }` of `Tunnels::Run` over
the messages the queue holds, in the order it hands them out. -/
def drainQueue (dec : LayerTransform) : List I2NPMessage → Tunnels → List Delivery × Tunnels
  | [], s => ([], s)
  | msg :: rest, s =>
    let r := dispatchMsg dec msg s
    let r2 := drainQueue dec rest r.2
    (r.1 :: r2.1, r2.2)

/-! ## Ciphers as functions -/

/-- The cipher object decrypts every record under the key and the IV it was
last loaded with: after `SetKey (k)` and `SetIV (v)` a call of `Decrypt` turns
the record `r` into `D k v r` and leaves the object as it was. -/
def CBCDecryption.Computes {R : Type} (C : CBCDecryption R) (D : AESKey → AESKey → R → R) :
    Prop :=
  ∀ st k v r, C.Decrypt (C.SetIV (C.SetKey st k) v) r = (C.SetIV (C.SetKey st k) v, D k v r)

/-- The cipher object whose registers are the key and the IV and whose `Decrypt`
is the function `D` of the registers. -/
def functionCipher {R : Type} (D : AESKey → AESKey → R → R) : CBCDecryption R :=
  { State := AESKey × AESKey, init := (0, 0),
    SetKey := fun st k => (k, st.2), SetIV := fun st v => (st.1, v),
    Decrypt := fun st r => (st, D st.1 st.2 r) }

/-- The records of `recs` with an index in `[i, i + n)` transformed by `f`, the
others as they are. -/
def mapRange {R : Type} (f : R → R) (i n : Nat) (recs : List R) : List R :=
  recs.mapIdx (fun j r => if i ≤ j ∧ j < i + n then f r else r)

/-- A tunnel with the two hops `sampleHop 7 11 13` and `sampleHop 17 21 23`,
their data ciphers loaded with the layer keys. -/
def twoHopTunnel : Tunnel :=
  Tunnel.new 0 TunnelKind.inbound
    [{ sampleHop 7 11 13 with decryption := { keys := some (11, 13) } },
      { sampleHop 17 21 23 with decryption := { keys := some (21, 23) } }] 0 0

/-- A toy layer transform for concrete runs: every byte is xor-ed with the
layer key the cipher is loaded with; it is its own inverse. -/
def xorLayer : LayerTransform :=
  fun d x => match d.keys with
    | some (layerKey, _) => x.map (fun b => b ^^^ layerKey)
    | none => x

/-- A toy layer transform for concrete runs whose layers do not commute: every
byte `b` becomes `2 * b + layerKey`. -/
def affineLayer : LayerTransform :=
  fun d x => match d.keys with
    | some (layerKey, _) => x.map (fun b => 2 * b + layerKey)
    | none => x

/-- Peeling a tunnel data message in the words of the spec: the hops apply their
transforms `E_h` in order from the first hop to the endpoint, each to the
region behind the tunnel ID. -/
def peel (enc : LayerTransform) (hops : List TunnelHopConfig) (msg : I2NPMessage) :
    I2NPMessage :=
  { msg with
    payload := msg.payload.take 4 ++
      hops.foldl (fun x h => enc h.decryption x) (msg.payload.drop 4) }

/-- A manager with an inbound tunnel and a transit tunnel both registered under
the ID 5, and a transit tunnel under the ID 6. -/
def sharedIdTables : Tunnels :=
  { Tunnels.fresh with
    m_InboundTunnels := StdMap.empty.assign 5 (inboundSample 0 5 0 true 0),
    m_TransitTunnels :=
      (StdMap.empty.assign 5 { tunnelID := 5, creationTime := 0 }).assign 6
        { tunnelID := 6, creationTime := 0 } }

/-- Number of `Build` calls in a trace that are made on an `OutboundTunnel`, that
is, of calls `CreateTunnel<OutboundTunnel>`. -/
def countOutboundBuilds : List Event → Nat
  | [] => 0
  | Event.Build t _ _ :: rest =>
    (if t.kind = TunnelKind.outbound then 1 else 0) + countOutboundBuilds rest
  | _ :: rest => countOutboundBuilds rest

/-- A manager with one inbound tunnel, failed, created at 0, and nothing else. -/
def oneFailedInbound : Tunnels :=
  { Tunnels.fresh with
    m_InboundTunnels := StdMap.empty.assign 10 (inboundSample 0 10 0 true 0) }

/-- A manager with one inbound tunnel, live, created at 0, and nothing else. -/
def oneLiveInbound : Tunnels :=
  { Tunnels.fresh with
    m_InboundTunnels := StdMap.empty.assign 10 (inboundSample 0 10 0 false 0) }

/-! ## Layering of the build request, in words -/

/-- A tunnel with three hops at the routers 0, 1 and 2, with the reply keys 7, 17
and 27 and the reply IVs 1, 2 and 3. -/
def threeHopTunnel : Tunnel :=
  Tunnel.new 0 TunnelKind.outbound
    [{ sampleHop 7 11 13 with router := 0, replyIV := 1 },
      { sampleHop 17 21 23 with router := 1, replyIV := 2 },
      { sampleHop 27 31 33 with router := 2, replyIV := 3 }] 0 0

/-- A symbolic record for concrete runs: the slot it was written for and the
(key, IV) pairs it has been decrypted under, oldest first. -/
abbrev TaggedRecord := Nat × List (AESKey × AESKey)

/-- The symbolic decryption: note the key and the IV on the record. -/
def tagDecrypt (k v : AESKey) (r : TaggedRecord) : TaggedRecord := (r.1, r.2 ++ [(k, v)])

/-- The symbolic ElGamal encryption for concrete runs: a record tagged with the
router it is for and no decryption yet. -/
def tagElGamal (router : IdentHash) (_clear : I2NPBuildRequestRecordClearText) :
    TaggedRecord := (router, [])

/-- Pre-decrypt layering by ranges: for each hop with index `i` from `N-2` down to
0, the records with the indices `first i, ..., N-1` are decrypted once under
that hop's reply key and reply IV. The spec has `first i = i`. -/
def layering {R : Type} (D : AESKey → AESKey → R → R) (first : Nat → Nat)
    (hops : List TunnelHopConfig) (recs : List R) : List R :=
  (List.range (hops.length - 1)).reverse.foldl
    (fun rs i =>
      match hops[i]? with
      | some hop => mapRange (D hop.replyKey hop.replyIV) (first i) (hops.length - first i) rs
      | none => rs)
    recs

/-- The second loop of `Build` when `Decrypt` computes `D`: the records after the
hops still to visit have had their turn. -/
def layerFrom {R : Type} (D : AESKey → AESKey → R → R) (numRecords : Nat) :
    List TunnelHopConfig → Nat → List R → List R
  | [], _, recs => recs
  | hop :: prevs, ind, recs =>
    layerFrom D numRecords prevs (ind - 1)
      (mapRange (D hop.replyKey hop.replyIV) ind (numRecords - ind) recs)

/-- States a manager gets into from a fresh one by calls of `CreateTunnel`,
whichever function makes them, and by steps that are no call of
`CreateTunnel`: such a step leaves the reply-ID counter alone, files nothing
in the pending table and calls no `Build`. -/
inductive FromFresh : Tunnels → Prop where
  | fresh : FromFresh Tunnels.fresh
  | createTunnel (kind : TunnelKind) (config : TunnelConfig) (ob : Option Tunnel) (env : Env)
      (s : Tunnels) : FromFresh s → FromFresh (CreateTunnel kind config ob env s).2
  | other (s s2 : Tunnels) : FromFresh s →
      s2.m_NextReplyMsgID = s.m_NextReplyMsgID →
      (∀ e ∈ s2.m_PendingTunnels.entries, e ∈ s.m_PendingTunnels.entries) →
      (∃ evs, s2.trace = s.trace ++ evs ∧ countBuilds evs = 0) → FromFresh s2

/-- The `Build` calls of a trace in the order they were made: the tunnel, the
reply ID and the outbound tunnel of each. -/
def buildCalls : List Event → List (Tunnel × Nat × Option Tunnel)
  | [] => []
  | Event.Build t r ob :: rest => (t, r, ob) :: buildCalls rest
  | _ :: rest => buildCalls rest

/-! ## A cipher object that chains -/

theorem decryptLoop_some {R : Type} (C : CBCDecryption R) (n : Nat) :
    ∀ (i : Nat) (st : C.State) (recs : List R), i + n ≤ recs.length →
      ∃ st2 recs2, decryptLoop C n i st recs = some (st2, recs2) ∧
        recs2.length = recs.length := by
  induction n with
  | zero => intro i st recs _; exact ⟨st, recs, rfl, rfl⟩
  | succ n ih =>
    intro i st recs h
    have hi : i < recs.length := by omega
    obtain ⟨st2, recs2, h1, h2⟩ :=
      ih (i + 1) (C.Decrypt st recs[i]).1 (recs.set i (C.Decrypt st recs[i]).2)
        (by rw [List.length_set]; omega)
    refine ⟨st2, recs2, ?_, ?_⟩
    · simp only [decryptLoop, List.getElem?_eq_getElem hi]
      exact h1
    · rw [h2, List.length_set]

theorem unwrapLoop_some {R : Type} (C : CBCDecryption R) (hops : List TunnelHopConfig) :
    ∀ (num : Int) (st : C.State) (recs : List R), num.toNat ≤ recs.length →
      ∃ st2 recs2, unwrapLoop C hops num st recs = some (st2, recs2) ∧
        recs2.length = recs.length := by
  induction hops with
  | nil => intro num st recs _; exact ⟨st, recs, rfl, rfl⟩
  | cons hop prevs ih =>
    intro num st recs h
    obtain ⟨st2, recs2, h1, h2⟩ :=
      decryptLoop_some C num.toNat 0 (C.SetIV (C.SetKey st hop.replyKey) hop.replyIV) recs
        (by omega)
    obtain ⟨st3, recs3, h3, h4⟩ := ih (num - 1) st2 recs2 (by omega)
    refine ⟨st3, recs3, ?_, by omega⟩
    simp only [unwrapLoop, h1]
    exact h3

theorem retLoop_spec {R : Type} (ret : R → Nat) (n : Nat) :
    ∀ (i : Nat) (recs : List R) (est : Bool), i + n ≤ recs.length →
      ∃ b, retLoop ret n i recs est = some b ∧
        (b = true ↔ est = true ∧
          ∀ j, i ≤ j → j < i + n → ∃ r, recs[j]? = some r ∧ ret r = 0) := by
  induction n with
  | zero =>
    intro i recs est _
    refine ⟨est, rfl, ?_⟩
    constructor
    · intro h; exact ⟨h, fun j h1 h2 => by omega⟩
    · intro h; exact h.1
  | succ n ih =>
    intro i recs est h
    have hi : i < recs.length := by omega
    obtain ⟨b, hb, hiff⟩ :=
      ih (i + 1) recs (if ret recs[i] ≠ 0 then false else est) (by omega)
    refine ⟨b, ?_, ?_⟩
    · simp only [retLoop, List.getElem?_eq_getElem hi]
      exact hb
    · rw [hiff]
      constructor
      · rintro ⟨h1, h2⟩
        by_cases hr : ret recs[i] = 0
        · simp [hr] at h1
          refine ⟨h1, fun j hj1 hj2 => ?_⟩
          by_cases hji : j = i
          · subst hji
            exact ⟨recs[j], List.getElem?_eq_getElem hi, hr⟩
          · exact h2 j (by omega) (by omega)
        · simp [hr] at h1
      · rintro ⟨h1, h2⟩
        obtain ⟨r, hr1, hr2⟩ := h2 i (le_refl _) (by omega)
        rw [List.getElem?_eq_getElem hi] at hr1
        have hr3 : ret recs[i] = 0 := by
          rw [Option.some.inj hr1]; exact hr2
        refine ⟨by simp [hr3, h1], fun j hj1 hj2 => h2 j (by omega) (by omega)⟩

theorem rebindLoop_eq_map (l : List TunnelHopConfig) :
    rebindLoop l =
      l.map (fun hop => { hop with decryption := { keys := some (hop.layerKey, hop.ivKey) } }) := by
  induction l with
  | nil => rfl
  | cons hop rest ih => simp [rebindLoop, ih, TunnelDecryption.SetKeys]

theorem HandleTunnelBuildResponse_run {R : Type} (C : CBCDecryption R)
    (ret : R → Nat) (t : Tunnel) (msg : BuildResponseMsg R) (len : Nat)
    (hbuf : msg.num ≤ msg.records.length) :
    ∃ st recs est,
      unwrapLoop C t.m_Config.reverse (msg.num : Int) C.init msg.records = some (st, recs) ∧
      HandleTunnelBuildResponse C ret t msg len =
        some (afterResponse t est, { num := msg.num, records := recs }, est) ∧
      (est = true ↔ ∀ i, i < msg.num → ∃ r, recs[i]? = some r ∧ ret r = 0) := by
  obtain ⟨st, recs, hun, hlen⟩ :=
    unwrapLoop_some C t.m_Config.reverse (msg.num : Int) C.init msg.records (by simpa using hbuf)
  obtain ⟨b, hb, hiff⟩ := retLoop_spec ret msg.num 0 recs true (by omega)
  refine ⟨st, recs, b, hun, ?_, ?_⟩
  · cases b <;> simp [HandleTunnelBuildResponse, hun, hb, afterResponse]
  · rw [hiff]
    constructor
    · intro h i hi
      exact h.2 i (Nat.zero_le _) (by omega)
    · intro h
      exact ⟨rfl, fun j _ hj => h j (by omega)⟩

theorem afterResponse_established (t : Tunnel) (est : Bool) :
    (afterResponse t est).m_IsEstablished = est := by
  cases est <;> rfl

/-- C1: for a buffer that holds the `msg[0]` records it announces,
`HandleTunnelBuildResponse` returns, its result is the established flag it
leaves in the tunnel, and that flag is true exactly when every one of the
`msg[0]` unwrapped records has `ret = 0`. -/
theorem HandleTunnelBuildResponse_established_iff {R : Type} (C : CBCDecryption R)
    (ret : R → Nat) (t : Tunnel) (msg : BuildResponseMsg R) (len : Nat)
    (hbuf : msg.num ≤ msg.records.length) :
    ∃ st recs t',
      unwrapLoop C t.m_Config.reverse (msg.num : Int) C.init msg.records = some (st, recs) ∧
      HandleTunnelBuildResponse C ret t msg len =
        some (t', { num := msg.num, records := recs }, t'.m_IsEstablished) ∧
      (t'.m_IsEstablished = true ↔
        ∀ i, i < msg.num → ∃ r, recs[i]? = some r ∧ ret r = 0) := by
  obtain ⟨st, recs, est, hun, hres, hiff⟩ := HandleTunnelBuildResponse_run C ret t msg len hbuf
  refine ⟨st, recs, afterResponse t est, hun, ?_, ?_⟩
  · rw [hres, afterResponse_established]
  · rw [afterResponse_established]; exact hiff

/-- Witness of C1: one accepting record for the one-hop sample tunnel. -/
theorem HandleTunnelBuildResponse_established_iff_witness :
    ∃ st recs t',
      unwrapLoop (plainCipher (List Nat)) sampleTunnel.m_Config.reverse ((1 : Nat) : Int)
        (plainCipher (List Nat)).init [responseRecord 0] = some (st, recs) ∧
      HandleTunnelBuildResponse (plainCipher (List Nat)) retByte sampleTunnel
          { num := 1, records := [responseRecord 0] } 529 =
        some (t', { num := 1, records := recs }, t'.m_IsEstablished) ∧
      (t'.m_IsEstablished = true ↔
        ∀ i, i < 1 → ∃ r, recs[i]? = some r ∧ retByte r = 0) :=
  HandleTunnelBuildResponse_established_iff (plainCipher (List Nat)) retByte sampleTunnel
    { num := 1, records := [responseRecord 0] } 529 (by decide)

set_option maxRecDepth 100000 in
/-- C2, counterexample: hop 0 of the one-hop sample tunnel declines with
`ret = 30`; the call returns false with the tunnel not established, and the
failed flag of the tunnel is still false. -/
theorem declined_tunnel_not_marked_failed :
    (HandleTunnelBuildResponse (plainCipher (List Nat)) retByte sampleTunnel
        { num := 1, records := [responseRecord 30] } 529).map
      (fun r => (r.2.2, r.1.m_IsEstablished, r.1.m_IsFailed)) = some (false, false, false) := by
  decide

/-- C2, amended: when some unwrapped record has `ret != 0`,
`HandleTunnelBuildResponse` returns false and leaves the tunnel not
established, with its failed flag, pool and configuration as they were. -/
theorem HandleTunnelBuildResponse_declined {R : Type} (C : CBCDecryption R)
    (ret : R → Nat) (t : Tunnel) (msg : BuildResponseMsg R) (len : Nat)
    (st : C.State) (recs : List R) (i : Nat) (r : R)
    (hbuf : msg.num ≤ msg.records.length)
    (hun : unwrapLoop C t.m_Config.reverse (msg.num : Int) C.init msg.records = some (st, recs))
    (hi : i < msg.num) (hr : recs[i]? = some r) (hret : ret r ≠ 0) :
    ∃ t', HandleTunnelBuildResponse C ret t msg len =
        some (t', { num := msg.num, records := recs }, false) ∧
      t'.m_IsEstablished = false ∧ t'.m_IsFailed = t.m_IsFailed ∧
      t'.m_Pool = t.m_Pool ∧ t'.m_Config = t.m_Config := by
  obtain ⟨st2, recs2, est, hun2, hres, hiff⟩ :=
    HandleTunnelBuildResponse_run C ret t msg len hbuf
  rw [hun] at hun2
  obtain ⟨rfl, rfl⟩ := Prod.mk.inj (Option.some.inj hun2)
  have hest : est = false := by
    cases est with
    | false => rfl
    | true =>
      obtain ⟨r2, hr2, hz⟩ := (hiff.1 rfl) i hi
      rw [hr] at hr2
      exact absurd ((Option.some.inj hr2) ▸ hz) hret
  subst hest
  exact ⟨afterResponse t false, hres, rfl, rfl, rfl, rfl⟩

set_option maxRecDepth 100000 in
/-- Witness of C2 (amended): the one-hop sample tunnel and a record with
`ret = 30`. -/
theorem HandleTunnelBuildResponse_declined_witness :
    ∃ t', HandleTunnelBuildResponse (plainCipher (List Nat)) retByte sampleTunnel
        { num := 1, records := [responseRecord 30] } 529 =
        some (t', { num := 1, records := [responseRecord 30] }, false) ∧
      t'.m_IsEstablished = false ∧ t'.m_IsFailed = sampleTunnel.m_IsFailed ∧
      t'.m_Pool = sampleTunnel.m_Pool ∧ t'.m_Config = sampleTunnel.m_Config :=
  HandleTunnelBuildResponse_declined (plainCipher (List Nat)) retByte sampleTunnel
    { num := 1, records := [responseRecord 30] } 529 () [responseRecord 30] 0 (responseRecord 30)
    (by decide) rfl (by decide) rfl (by decide)

/-- C3: for a buffer that holds the `msg[0]` records it announces, a run that
returns true leaves every hop, in place, with its cipher loaded with that
hop's own `layerKey` and `ivKey` and nothing else in the hop changed; a
run that returns false leaves the configuration as it was. -/
theorem HandleTunnelBuildResponse_rebinds {R : Type} (C : CBCDecryption R)
    (ret : R → Nat) (t : Tunnel) (msg : BuildResponseMsg R) (len : Nat)
    (hbuf : msg.num ≤ msg.records.length) :
    ∃ t' msg' b, HandleTunnelBuildResponse C ret t msg len = some (t', msg', b) ∧
      (b = true →
        t'.m_Config.length = t.m_Config.length ∧
        ∀ (i : Nat) (hop : TunnelHopConfig), t.m_Config[i]? = some hop →
          t'.m_Config[i]? =
            some { hop with decryption := { keys := some (hop.layerKey, hop.ivKey) } }) ∧
      (b = false → t'.m_Config = t.m_Config) := by
  obtain ⟨st, recs, est, _, hres, _⟩ := HandleTunnelBuildResponse_run C ret t msg len hbuf
  refine ⟨afterResponse t est, _, est, hres, ?_, ?_⟩
  · intro h
    subst h
    simp only [afterResponse, if_true, rebindLoop_eq_map]
    refine ⟨by simp, fun i hop h => ?_⟩
    simp [List.getElem?_map, h]
  · intro h
    subst h
    rfl

set_option maxRecDepth 100000 in
/-- Witness of C3: an accepted build of the one-hop sample tunnel binds the
cipher of its hop to the keys 11 and 13. -/
theorem HandleTunnelBuildResponse_rebinds_witness :
    ∃ t' msg' b, HandleTunnelBuildResponse (plainCipher (List Nat)) retByte sampleTunnel
        { num := 1, records := [responseRecord 0] } 529 = some (t', msg', b) ∧
      (b = true →
        t'.m_Config.length = sampleTunnel.m_Config.length ∧
        ∀ (i : Nat) (hop : TunnelHopConfig), sampleTunnel.m_Config[i]? = some hop →
          t'.m_Config[i]? =
            some { hop with decryption := { keys := some (hop.layerKey, hop.ivKey) } }) ∧
      (b = false → t'.m_Config = sampleTunnel.m_Config) :=
  HandleTunnelBuildResponse_rebinds (plainCipher (List Nat)) retByte sampleTunnel
    { num := 1, records := [responseRecord 0] } 529 (by decide)

/-! ## Theorems: lookups -/

theorem eraseP_key_eq_filter {V : Type} (k : Nat) (l : List (Nat × V))
    (hl : l.Pairwise (fun a b => a.1 < b.1)) :
    l.eraseP (fun e => e.1 == k) = l.filter (fun e => e.1 != k) := by
  induction l with
  | nil => rfl
  | cons e rest ih =>
    have hhead := (List.pairwise_cons.1 hl).1
    have hrest := (List.pairwise_cons.1 hl).2
    by_cases h : e.1 = k
    · have hfil : rest.filter (fun e => e.1 != k) = rest := by
        apply List.filter_eq_self.2
        intro a ha
        have := hhead a ha
        simp only [bne_iff_ne, ne_eq]
        omega
      simp [List.eraseP_cons, h, hfil]
    · simp [List.eraseP_cons, h, ih hrest]

theorem find_of_mem {V : Type} (m : StdMap V) (k : Nat) (v : V)
    (h : (k, v) ∈ m.entries) : m.find k = some v := by
  obtain ⟨l, hl⟩ := m
  simp only [StdMap.find] at *
  induction l with
  | nil => simp at h
  | cons e rest ih =>
    have hhead := (List.pairwise_cons.1 hl).1
    have hrest := (List.pairwise_cons.1 hl).2
    rcases List.mem_cons.1 h with h1 | h1
    · subst h1; simp
    · have := hhead _ h1
      have hne : ¬ e.1 = k := by simp at this; omega
      simp [List.find?_cons, hne, ih hrest h1]

theorem mem_of_find {V : Type} (m : StdMap V) (k : Nat) (v : V)
    (h : m.find k = some v) : (k, v) ∈ m.entries := by
  obtain ⟨l, hl⟩ := m
  simp only [StdMap.find, Option.map_eq_some'] at h
  obtain ⟨e, he, hv⟩ := h
  have h1 := List.mem_of_find?_eq_some he
  have h2 := List.find?_some he
  simp only [beq_iff_eq] at h2
  have : e = (k, v) := by
    cases e; simp_all
  exact this ▸ h1

theorem find_eq_none_iff {V : Type} (m : StdMap V) (k : Nat) :
    m.find k = none ↔ ∀ v, (k, v) ∉ m.entries := by
  constructor
  · intro h v hv
    rw [find_of_mem m k v hv] at h
    exact Option.noConfusion h
  · intro h
    cases hf : m.find k with
    | none => rfl
    | some v => exact absurd (mem_of_find m k v hf) (h v)

theorem erase_entries {V : Type} (m : StdMap V) (k : Nat) :
    (m.erase k).entries = m.entries.filter (fun e => e.1 != k) :=
  eraseP_key_eq_filter k m.entries m.ordered

theorem GetPendingTunnel_of_find_none (r : Nat) (s : Tunnels)
    (h : s.m_PendingTunnels.find r = none) : GetPendingTunnel r s = (none, s) := by
  simp [GetPendingTunnel, h]

/-- C4: `GetPendingTunnel (r)` on a table that has `r` returns the tunnel filed
under `r`, leaves exactly the entries with another key (in their order) and no
other member of the manager changed, so that `r` is no key any more and a
second call returns null; on a table that has no `r` it returns null and the
manager is as before. -/
theorem GetPendingTunnel_spec (r : Nat) (s : Tunnels) :
    (∀ t, (r, t) ∈ s.m_PendingTunnels.entries →
      (GetPendingTunnel r s).1 = some t ∧
      (GetPendingTunnel r s).2.m_PendingTunnels.entries =
        s.m_PendingTunnels.entries.filter (fun e => e.1 != r) ∧
      (∀ v, (r, v) ∉ (GetPendingTunnel r s).2.m_PendingTunnels.entries) ∧
      (∀ e, e.1 ≠ r → (e ∈ (GetPendingTunnel r s).2.m_PendingTunnels.entries ↔
        e ∈ s.m_PendingTunnels.entries)) ∧
      (GetPendingTunnel r s).2 =
        { s with m_PendingTunnels := (GetPendingTunnel r s).2.m_PendingTunnels } ∧
      GetPendingTunnel r (GetPendingTunnel r s).2 = (none, (GetPendingTunnel r s).2)) ∧
    ((∀ t, (r, t) ∉ s.m_PendingTunnels.entries) → GetPendingTunnel r s = (none, s)) := by
  constructor
  · intro t ht
    have hf := find_of_mem _ _ _ ht
    have hs : GetPendingTunnel r s =
        (some t, { s with m_PendingTunnels := s.m_PendingTunnels.erase r }) := by
      simp [GetPendingTunnel, hf]
    have hent : (GetPendingTunnel r s).2.m_PendingTunnels.entries =
        s.m_PendingTunnels.entries.filter (fun e => e.1 != r) := by
      rw [hs]; exact erase_entries _ _
    have hno : ∀ v, (r, v) ∉ (GetPendingTunnel r s).2.m_PendingTunnels.entries := by
      intro v hv
      rw [hent] at hv
      simp at hv
    refine ⟨by rw [hs], hent, hno, ?_, by rw [hs], ?_⟩
    · intro e he
      rw [hent]
      simp [he]
    · exact GetPendingTunnel_of_find_none r _ ((find_eq_none_iff _ r).2 hno)
  · intro h
    exact GetPendingTunnel_of_find_none r s ((find_eq_none_iff _ r).2 h)

/-- Witness of C4: taking the build filed under 556 out of three. -/
theorem GetPendingTunnel_spec_witness :
    (GetPendingTunnel 556 threePending).1 =
        some (Tunnel.new 1 TunnelKind.inbound [sampleHop 4 5 6] 100 0) ∧
      (GetPendingTunnel 556 threePending).2.m_PendingTunnels.entries =
        threePending.m_PendingTunnels.entries.filter (fun e => e.1 != 556) ∧
      (∀ v, (556, v) ∉ (GetPendingTunnel 556 threePending).2.m_PendingTunnels.entries) ∧
      (∀ e, e.1 ≠ 556 → (e ∈ (GetPendingTunnel 556 threePending).2.m_PendingTunnels.entries ↔
        e ∈ threePending.m_PendingTunnels.entries)) ∧
      (GetPendingTunnel 556 threePending).2 =
        { threePending with
          m_PendingTunnels := (GetPendingTunnel 556 threePending).2.m_PendingTunnels } ∧
      GetPendingTunnel 556 (GetPendingTunnel 556 threePending).2 =
        (none, (GetPendingTunnel 556 threePending).2) :=
  (GetPendingTunnel_spec 556 threePending).1
    (Tunnel.new 1 TunnelKind.inbound [sampleHop 4 5 6] 100 0) (by decide)

theorem nextInboundLoop_spec (l : List (Nat × Tunnel)) :
    ∀ (cur : Option Tunnel) (m : Nat),
      (∀ c, cur = some c → c.m_IsFailed = false ∧ c.numReceivedBytes = m) →
      (nextInboundLoop l cur m = none ↔ cur = none ∧ ∀ e ∈ l, e.2.m_IsFailed = true) ∧
      ∀ t, nextInboundLoop l cur m = some t →
        (cur = some t ∨ ∃ k, (k, t) ∈ l) ∧ t.m_IsFailed = false ∧
        (∀ c, cur = some c → t.numReceivedBytes ≤ c.numReceivedBytes) ∧
        ∀ e ∈ l, e.2.m_IsFailed = false → t.numReceivedBytes ≤ e.2.numReceivedBytes := by
  induction l with
  | nil =>
    intro cur m hcur
    refine ⟨by simp [nextInboundLoop], ?_⟩
    intro t ht
    simp only [nextInboundLoop] at ht
    exact ⟨Or.inl ht, (hcur t ht).1, fun c hc => by
      rw [ht] at hc; rw [Option.some.inj hc], fun e he => by simp at he⟩
  | cons it rest ih =>
    intro cur m hcur
    by_cases hf : it.2.m_IsFailed = true
    · have hstep : nextInboundLoop (it :: rest) cur m = nextInboundLoop rest cur m := by
        simp [nextInboundLoop, hf]
      rw [hstep]
      obtain ⟨h1, h2⟩ := ih cur m hcur
      refine ⟨?_, ?_⟩
      · rw [h1]
        constructor
        · rintro ⟨ha, hb⟩
          exact ⟨ha, fun e he => by
            rcases List.mem_cons.1 he with h | h
            · rw [h]; exact hf
            · exact hb e h⟩
        · rintro ⟨ha, hb⟩
          exact ⟨ha, fun e he => hb e (List.mem_cons_of_mem _ he)⟩
      · intro t ht
        obtain ⟨ha, hb, hc, hd⟩ := h2 t ht
        refine ⟨?_, hb, hc, ?_⟩
        · rcases ha with ha | ⟨k, hk⟩
          · exact Or.inl ha
          · exact Or.inr ⟨k, List.mem_cons_of_mem _ hk⟩
        · intro e he hnf
          rcases List.mem_cons.1 he with h | h
          · rw [h] at hnf; rw [hf] at hnf; exact Bool.noConfusion hnf
          · exact hd e h hnf
    · have hf2 : it.2.m_IsFailed = false := by
        cases h : it.2.m_IsFailed with
        | false => rfl
        | true => exact absurd h hf
      by_cases hsel : cur.isNone = true ∨ it.2.numReceivedBytes < m
      · have hstep : nextInboundLoop (it :: rest) cur m =
            nextInboundLoop rest (some it.2) it.2.numReceivedBytes := by
          rcases hsel with h | h <;> simp [nextInboundLoop, hf2, h]
        rw [hstep]
        obtain ⟨h1, h2⟩ := ih (some it.2) it.2.numReceivedBytes (fun c hc => by
          rw [← Option.some.inj hc]; exact ⟨hf2, rfl⟩)
        refine ⟨?_, ?_⟩
        · rw [h1]
          constructor
          · rintro ⟨ha, _⟩; exact Option.noConfusion ha
          · rintro ⟨_, hb⟩
            have := hb it (List.mem_cons_self _ _)
            rw [hf2] at this
            exact Bool.noConfusion this
        · intro t ht
          obtain ⟨ha, hb, hc, hd⟩ := h2 t ht
          have hle : t.numReceivedBytes ≤ it.2.numReceivedBytes := hc it.2 rfl
          refine ⟨?_, hb, ?_, ?_⟩
          · rcases ha with ha | ⟨k, hk⟩
            · refine Or.inr ⟨it.1, ?_⟩
              rw [← Option.some.inj ha]
              exact List.mem_cons_self _ _
            · exact Or.inr ⟨k, List.mem_cons_of_mem _ hk⟩
          · intro c hc
            rcases hsel with h | h
            · rw [hc] at h; simp at h
            · have := (hcur c hc).2
              omega
          · intro e he hnf
            rcases List.mem_cons.1 he with h | h
            · rw [h]; exact hle
            · exact hd e h hnf
      · have hsel1 : cur.isNone = false := by
          cases h : cur.isNone with
          | false => rfl
          | true => exact absurd (Or.inl h) hsel
        have hsel2 : ¬ it.2.numReceivedBytes < m := fun h => hsel (Or.inr h)
        have hstep : nextInboundLoop (it :: rest) cur m = nextInboundLoop rest cur m := by
          simp [nextInboundLoop, hf2, hsel1, hsel2]
        rw [hstep]
        obtain ⟨h1, h2⟩ := ih cur m hcur
        refine ⟨?_, ?_⟩
        · rw [h1]
          constructor
          · rintro ⟨ha, _⟩; rw [ha] at hsel1; simp at hsel1
          · rintro ⟨ha, hb⟩
            exact ⟨ha, fun e he => hb e (List.mem_cons_of_mem _ he)⟩
        · intro t ht
          obtain ⟨ha, hb, hc, hd⟩ := h2 t ht
          refine ⟨?_, hb, hc, ?_⟩
          · rcases ha with ha | ⟨k, hk⟩
            · exact Or.inl ha
            · exact Or.inr ⟨k, List.mem_cons_of_mem _ hk⟩
          · intro e he hnf
            rcases List.mem_cons.1 he with h | h
            · cases hcur' : cur with
              | none => rw [hcur'] at hsel1; simp at hsel1
              | some c =>
                have h3 := hc c hcur'
                have h4 := (hcur c hcur').2
                rw [h]
                omega
            · exact hd e h hnf

/-- C5: `GetNextInboundTunnel` returns null exactly when every tunnel of the
inbound table is failed; a tunnel it returns is in the table, is not failed,
and has received no more bytes than any non-failed tunnel of the table. -/
theorem GetNextInboundTunnel_spec (s : Tunnels) :
    (GetNextInboundTunnel s = none ↔
      ∀ e ∈ s.m_InboundTunnels.entries, e.2.m_IsFailed = true) ∧
    (∀ t, GetNextInboundTunnel s = some t →
      (∃ k, (k, t) ∈ s.m_InboundTunnels.entries) ∧ t.m_IsFailed = false ∧
      ∀ e ∈ s.m_InboundTunnels.entries, e.2.m_IsFailed = false →
        t.numReceivedBytes ≤ e.2.numReceivedBytes) := by
  obtain ⟨h1, h2⟩ := nextInboundLoop_spec s.m_InboundTunnels.entries none 0
    (fun c hc => Option.noConfusion hc)
  refine ⟨?_, ?_⟩
  · unfold GetNextInboundTunnel
    rw [h1]
    simp
  · intro t ht
    obtain ⟨ha, hb, _, hd⟩ := h2 t ht
    refine ⟨?_, hb, hd⟩
    rcases ha with ha | ha
    · exact Option.noConfusion ha
    · exact ha

/-- Witness of C5: of the three inbound tunnels the live one with 25 bytes is
returned. -/
theorem GetNextInboundTunnel_spec_witness :
    (∃ k, (k, inboundSample 2 30 25 false 0) ∈ threeInbound.m_InboundTunnels.entries) ∧
      (inboundSample 2 30 25 false 0).m_IsFailed = false ∧
      ∀ e ∈ threeInbound.m_InboundTunnels.entries, e.2.m_IsFailed = false →
        (inboundSample 2 30 25 false 0).numReceivedBytes ≤ e.2.numReceivedBytes :=
  (GetNextInboundTunnel_spec threeInbound).2 (inboundSample 2 30 25 false 0) (by decide)

/-- C6, the code at the failing input: the outbound list is a failed tunnel
followed by a live one and the index drawn is 0 (in `[0, size-1] = [0, 1]`);
`GetNextOutboundTunnel` returns the failed tunnel. -/
theorem GetNextOutboundTunnel_returns_failed :
    (∃ t ∈ failedThenLive.m_OutboundTunnels, t.m_IsFailed = false) ∧
    0 ≤ failedThenLive.m_OutboundTunnels.length - 1 ∧
    GetNextOutboundTunnel 0 failedThenLive = some (outboundSample 0 10 true 0 none) ∧
    (outboundSample 0 10 true 0 none).m_IsFailed = true := by
  decide

/-! ## Theorems: expiry -/

theorem CreateTunnel_outbound (kind : TunnelKind) (config : TunnelConfig) (ob : Option Tunnel)
    (env : Env) (s : Tunnels) :
    (CreateTunnel kind config ob env s).2.m_OutboundTunnels = s.m_OutboundTunnels := rfl

theorem CreateTunnel_inbound (kind : TunnelKind) (config : TunnelConfig) (ob : Option Tunnel)
    (env : Env) (s : Tunnels) :
    (CreateTunnel kind config ob env s).2.m_InboundTunnels = s.m_InboundTunnels := rfl

theorem CreateTunnel_trace (kind : TunnelKind) (config : TunnelConfig) (ob : Option Tunnel)
    (env : Env) (s : Tunnels) :
    (CreateTunnel kind config ob env s).2.trace =
      s.trace ++ [Event.Build (CreateTunnel kind config ob env s).1 s.m_NextReplyMsgID ob] := rfl

theorem expireOutboundLoop_fst (ts : Nat) (l : List Tunnel) :
    (expireOutboundLoop ts l).1 = l.filter (fun t => !expiredAt ts t) := by
  induction l with
  | nil => rfl
  | cons it rest ih =>
    unfold expireOutboundLoop
    by_cases h : ts > it.creationTime + TUNNEL_EXPIRATION_TIMEOUT
    · simp [h, ih, expiredAt]
    · simp [h, ih, expiredAt]

theorem count_notifyExpired (p : IdentHash) (t it : Tunnel) :
    (notifyExpired it).count (Event.TunnelExpired p t) =
      if t.m_Pool = some p ∧ it = t then 1 else 0 := by
  unfold notifyExpired
  cases hp : it.m_Pool with
  | none =>
    have : ¬ (t.m_Pool = some p ∧ it = t) := by
      rintro ⟨h1, h2⟩
      rw [h2, h1] at hp
      exact Option.noConfusion hp
    simp [this]
  | some q =>
    by_cases h : t.m_Pool = some p ∧ it = t
    · obtain ⟨h1, h2⟩ := h
      subst h2
      rw [hp] at h1
      have hq : q = p := Option.some.inj h1
      subst hq
      simp [hp]
    · have hne : Event.TunnelExpired q it ≠ Event.TunnelExpired p t := by
        intro he
        injection he with h1 h2
        apply h
        subst h1 h2
        exact ⟨hp, rfl⟩
      simp [h, List.count_cons, hne]

theorem expireOutboundLoop_count (ts : Nat) (p : IdentHash) (t : Tunnel) (l : List Tunnel) :
    (expireOutboundLoop ts l).2.count (Event.TunnelExpired p t) =
      if t.m_Pool = some p ∧ expiredAt ts t = true then l.count t else 0 := by
  induction l with
  | nil => simp [expireOutboundLoop]
  | cons it rest ih =>
    unfold expireOutboundLoop
    by_cases h : ts > it.creationTime + TUNNEL_EXPIRATION_TIMEOUT
    · simp only [h, if_true, List.count_append, ih, count_notifyExpired, List.count_cons]
      by_cases h1 : t.m_Pool = some p
      · by_cases h2 : it = t
        · subst h2
          simp [h1, expiredAt, h]
          omega
        · simp [h1, h2]
      · simp [h1]
    · simp only [h, if_false, ih, List.count_cons]
      by_cases h1 : t.m_Pool = some p ∧ expiredAt ts t = true
      · have h2 : ¬ it = t := by
          intro he
          subst he
          simp [expiredAt] at h1
          omega
        simp [h1, h2]
      · simp [h1]

theorem expireInboundLoop_fst (ts : Nat) (l : List (Nat × Tunnel)) :
    (expireInboundLoop ts l).1 = l.filter (fun e => !expiredAt ts e.2) := by
  induction l with
  | nil => rfl
  | cons it rest ih =>
    unfold expireInboundLoop
    by_cases h : ts > it.2.creationTime + TUNNEL_EXPIRATION_TIMEOUT
    · simp [h, ih, expiredAt]
    · simp [h, ih, expiredAt]

theorem expireInboundLoop_snd (ts : Nat) (l : List (Nat × Tunnel)) :
    (expireInboundLoop ts l).2 = (expireOutboundLoop ts (l.map Prod.snd)).2 := by
  induction l with
  | nil => rfl
  | cons it rest ih =>
    simp only [expireInboundLoop, List.map_cons, expireOutboundLoop]
    split_ifs
    · simp [ih]
    · exact ih

theorem expireTransitLoop_eq (ts : Nat) (l : List (Nat × TransitTunnel)) :
    expireTransitLoop ts l =
      l.filter (fun e => !decide (ts > e.2.creationTime + TUNNEL_EXPIRATION_TIMEOUT)) := by
  induction l with
  | nil => rfl
  | cons it rest ih =>
    unfold expireTransitLoop
    by_cases h : ts > it.2.creationTime + TUNNEL_EXPIRATION_TIMEOUT
    · simp [h, ih]
    · simp [h, ih]

theorem CreateTunnel_trace_builds (kind : TunnelKind) (config : TunnelConfig)
    (ob : Option Tunnel) (env : Env) (s : Tunnels) (pre : List Event) (evs : List Event)
    (hs : s.trace = pre ++ evs) :
    ∃ b, (∀ e ∈ b, ∃ t r o, e = Event.Build t r o) ∧
      (CreateTunnel kind config ob env s).2.trace = pre ++ (evs ++ b) := by
  refine ⟨[Event.Build (CreateTunnel kind config ob env s).1 s.m_NextReplyMsgID ob], ?_, ?_⟩
  · intro e he
    exact ⟨_, _, _, List.mem_singleton.1 he⟩
  · rw [CreateTunnel_trace, hs, List.append_assoc]

/-- Events of `ManageOutboundTunnels`: the pool calls of the erase loop, then
the build of the replenishment, if any. -/
theorem ManageOutboundTunnels_effect (env : Env) (s : Tunnels) :
    (ManageOutboundTunnels env s).m_OutboundTunnels =
        s.m_OutboundTunnels.filter (fun t => !expiredAt env.now t) ∧
    (ManageOutboundTunnels env s).m_InboundTunnels = s.m_InboundTunnels ∧
    ∃ b, (∀ e ∈ b, ∃ t r o, e = Event.Build t r o) ∧
      (ManageOutboundTunnels env s).trace =
        s.trace ++ ((expireOutboundLoop env.now s.m_OutboundTunnels).2 ++ b) := by
  unfold ManageOutboundTunnels
  simp only []
  split_ifs with h
  · split
    · exact ⟨expireOutboundLoop_fst _ _, rfl, [], by simp, by simp⟩
    · exact ⟨expireOutboundLoop_fst _ _, rfl, CreateTunnel_trace_builds _ _ _ _ _ _ _ rfl⟩
  · exact ⟨expireOutboundLoop_fst _ _, rfl, [], by simp, by simp⟩

/-- Events of `ManageInboundTunnels`: the pool calls of the erase loop, then the
build of the replenishment, if any. -/
theorem ManageInboundTunnels_effect (env : Env) (s : Tunnels) :
    (ManageInboundTunnels env s).m_InboundTunnels.entries =
        s.m_InboundTunnels.entries.filter (fun e => !expiredAt env.now e.2) ∧
    (ManageInboundTunnels env s).m_OutboundTunnels = s.m_OutboundTunnels ∧
    ∃ b, (∀ e ∈ b, ∃ t r o, e = Event.Build t r o) ∧
      (ManageInboundTunnels env s).trace =
        s.trace ++ ((expireOutboundLoop env.now
          (s.m_InboundTunnels.entries.map Prod.snd)).2 ++ b) := by
  unfold ManageInboundTunnels
  simp only []
  rw [← expireInboundLoop_snd]
  split_ifs with h1 h2 h3
  · exact ⟨expireInboundLoop_fst _ _, rfl, CreateTunnel_trace_builds _ _ _ _ _ _ _ rfl⟩
  · exact ⟨expireInboundLoop_fst _ _, rfl, CreateTunnel_trace_builds _ _ _ _ _ _ _ rfl⟩
  · exact ⟨expireInboundLoop_fst _ _, rfl, CreateTunnel_trace_builds _ _ _ _ _ _ _ rfl⟩
  · exact ⟨expireInboundLoop_fst _ _, rfl, [], by simp, by simp⟩

theorem count_expired_of_builds (p : IdentHash) (t : Tunnel) (b : List Event)
    (hb : ∀ e ∈ b, ∃ u r o, e = Event.Build u r o) :
    b.count (Event.TunnelExpired p t) = 0 := by
  apply List.count_eq_zero.2
  intro hmem
  obtain ⟨u, r, o, h⟩ := hb _ hmem
  exact Event.noConfusion h

theorem ManageOutboundTunnels_calls (env : Env) (s : Tunnels) :
    ∃ evs, (ManageOutboundTunnels env s).trace = s.trace ++ evs ∧
      ∀ p t, evs.count (Event.TunnelExpired p t) =
        if t.m_Pool = some p ∧ expiredAt env.now t = true then s.m_OutboundTunnels.count t
        else 0 := by
  obtain ⟨_, _, b, hb, htr⟩ := ManageOutboundTunnels_effect env s
  refine ⟨_, htr, fun p t => ?_⟩
  rw [List.count_append, count_expired_of_builds p t b hb, expireOutboundLoop_count]
  rfl

theorem ManageInboundTunnels_calls (env : Env) (s : Tunnels) :
    ∃ evs, (ManageInboundTunnels env s).trace = s.trace ++ evs ∧
      ∀ p t, evs.count (Event.TunnelExpired p t) =
        if t.m_Pool = some p ∧ expiredAt env.now t = true then
          (s.m_InboundTunnels.entries.map Prod.snd).count t
        else 0 := by
  obtain ⟨_, _, b, hb, htr⟩ := ManageInboundTunnels_effect env s
  refine ⟨_, htr, fun p t => ?_⟩
  rw [List.count_append, count_expired_of_builds p t b hb, expireOutboundLoop_count]
  rfl

/-- C7: let `t` have `now >= creation time + EXPIRATION + 1`. After
`ManageOutboundTunnels` the outbound list is the list of before without its
tunnels that are past `creation time + EXPIRATION`, in the same order, so
`t` is not in it; among the calls of the tick, `TunnelExpired (t)` goes to
the pool of `t` as many times as `t` was in the list (once for a tunnel that
is in it once), and no tunnel that stays gets a `TunnelExpired` call. The
same holds for `ManageInboundTunnels` and the inbound table. -/
theorem expired_tunnel_leaves_table (env : Env) (s : Tunnels) (t : Tunnel)
    (hexp : t.creationTime + TUNNEL_EXPIRATION_TIMEOUT + 1 ≤ env.now) :
    (t ∉ (ManageOutboundTunnels env s).m_OutboundTunnels ∧
      (ManageOutboundTunnels env s).m_OutboundTunnels =
        s.m_OutboundTunnels.filter
          (fun u => decide (env.now ≤ u.creationTime + TUNNEL_EXPIRATION_TIMEOUT)) ∧
      ∃ evs, (ManageOutboundTunnels env s).trace = s.trace ++ evs ∧
        (∀ p, t.m_Pool = some p →
          evs.count (Event.TunnelExpired p t) = s.m_OutboundTunnels.count t) ∧
        (∀ p u, u ∈ (ManageOutboundTunnels env s).m_OutboundTunnels →
          evs.count (Event.TunnelExpired p u) = 0)) ∧
    ((∀ k, (k, t) ∉ (ManageInboundTunnels env s).m_InboundTunnels.entries) ∧
      (ManageInboundTunnels env s).m_InboundTunnels.entries =
        s.m_InboundTunnels.entries.filter
          (fun e => decide (env.now ≤ e.2.creationTime + TUNNEL_EXPIRATION_TIMEOUT)) ∧
      ∃ evs, (ManageInboundTunnels env s).trace = s.trace ++ evs ∧
        (∀ p, t.m_Pool = some p →
          evs.count (Event.TunnelExpired p t) =
            (s.m_InboundTunnels.entries.map Prod.snd).count t) ∧
        (∀ p e, e ∈ (ManageInboundTunnels env s).m_InboundTunnels.entries →
          evs.count (Event.TunnelExpired p e.2) = 0)) := by
  have ht : expiredAt env.now t = true := by
    simp only [expiredAt, decide_eq_true_eq]; omega
  have hfun : (fun u : Tunnel => !expiredAt env.now u) =
      (fun u => decide (env.now ≤ u.creationTime + TUNNEL_EXPIRATION_TIMEOUT)) := by
    funext u
    simp only [expiredAt, gt_iff_lt]
    by_cases h : u.creationTime + TUNNEL_EXPIRATION_TIMEOUT < env.now
    · simp [h]
    · simp [h]; omega
  have hfun2 : (fun e : Nat × Tunnel => !expiredAt env.now e.2) =
      (fun e => decide (env.now ≤ e.2.creationTime + TUNNEL_EXPIRATION_TIMEOUT)) := by
    funext e
    exact congrFun hfun e.2
  constructor
  · obtain ⟨h1, _, _⟩ := ManageOutboundTunnels_effect env s
    obtain ⟨evs, hevs, hcount⟩ := ManageOutboundTunnels_calls env s
    refine ⟨?_, by rw [h1, hfun], evs, hevs, ?_, ?_⟩
    · rw [h1]
      intro hmem
      have := (List.mem_filter.1 hmem).2
      simp [ht] at this
    · intro p hp
      rw [hcount]
      simp [hp, ht]
    · intro p u hu
      rw [h1] at hu
      have hu2 := (List.mem_filter.1 hu).2
      rw [hcount]
      have : expiredAt env.now u = false := by simpa using hu2
      simp [this]
  · obtain ⟨h1, _, _⟩ := ManageInboundTunnels_effect env s
    obtain ⟨evs, hevs, hcount⟩ := ManageInboundTunnels_calls env s
    refine ⟨?_, by rw [h1, hfun2], evs, hevs, ?_, ?_⟩
    · intro k
      rw [h1]
      intro hmem
      have := (List.mem_filter.1 hmem).2
      simp [ht] at this
    · intro p hp
      rw [hcount]
      simp [hp, ht]
    · intro p e he
      rw [h1] at he
      have hu2 := (List.mem_filter.1 he).2
      rw [hcount]
      have : expiredAt env.now e.2 = false := by simpa using hu2
      simp [this]

/-- Witness of C7: at time 601 the outbound tunnel created at 0 leaves the list
of `agedTables` and its pool 9 is told once. -/
theorem expired_tunnel_leaves_table_witness :
    outboundSample 0 10 false 0 (some 9) ∉
        (ManageOutboundTunnels (sampleEnv 601) agedTables).m_OutboundTunnels ∧
      (ManageOutboundTunnels (sampleEnv 601) agedTables).m_OutboundTunnels =
        agedTables.m_OutboundTunnels.filter
          (fun u => decide ((sampleEnv 601).now ≤ u.creationTime + TUNNEL_EXPIRATION_TIMEOUT)) ∧
      ∃ evs, (ManageOutboundTunnels (sampleEnv 601) agedTables).trace = agedTables.trace ++ evs ∧
        (∀ p, (outboundSample 0 10 false 0 (some 9)).m_Pool = some p →
          evs.count (Event.TunnelExpired p (outboundSample 0 10 false 0 (some 9))) =
            agedTables.m_OutboundTunnels.count (outboundSample 0 10 false 0 (some 9))) ∧
        (∀ p u, u ∈ (ManageOutboundTunnels (sampleEnv 601) agedTables).m_OutboundTunnels →
          evs.count (Event.TunnelExpired p u) = 0) :=
  (expired_tunnel_leaves_table (sampleEnv 601) agedTables (outboundSample 0 10 false 0 (some 9))
    (by decide)).1

/-- C8, counterexample: the outbound tunnel of `agedTables` created at 0 has
`c + EXPIRATION = 600`; the tick run at `now = 600` keeps it in the outbound
list, both after `ManageOutboundTunnels` and after the whole of
`ManageTunnels`. -/
theorem tunnel_at_expiration_kept :
    (outboundSample 0 10 false 0 (some 9)).creationTime + TUNNEL_EXPIRATION_TIMEOUT
        ≤ (sampleEnv 600).now ∧
    outboundSample 0 10 false 0 (some 9) ∈ agedTables.m_OutboundTunnels ∧
    outboundSample 0 10 false 0 (some 9) ∈
      (ManageOutboundTunnels (sampleEnv 600) agedTables).m_OutboundTunnels ∧
    outboundSample 0 10 false 0 (some 9) ∈
      (ManageTunnels (sampleEnv 600) agedTables).m_OutboundTunnels := by
  decide

/-- C8, amended: a tunnel of the outbound list or of the inbound table is
removed by the erase loop of its tick exactly when `c + EXPIRATION < now`, and
a transit tunnel exactly when `c + EXPIRATION` is below the clock read as a
32-bit value; a tunnel with `c + EXPIRATION = now` stays. -/
theorem removed_iff_past_expiration (env : Env) (s : Tunnels) :
    (∀ t ∈ s.m_OutboundTunnels,
      (t ∉ (ManageOutboundTunnels env s).m_OutboundTunnels ↔
        t.creationTime + TUNNEL_EXPIRATION_TIMEOUT < env.now)) ∧
    (∀ e ∈ s.m_InboundTunnels.entries,
      (e ∉ (ManageInboundTunnels env s).m_InboundTunnels.entries ↔
        e.2.creationTime + TUNNEL_EXPIRATION_TIMEOUT < env.now)) ∧
    (∀ e ∈ s.m_TransitTunnels.entries,
      (e ∉ (ManageTransitTunnels env s).m_TransitTunnels.entries ↔
        e.2.creationTime + TUNNEL_EXPIRATION_TIMEOUT < env.now % 2 ^ 32)) := by
  refine ⟨?_, ?_, ?_⟩
  · intro t ht
    rw [(ManageOutboundTunnels_effect env s).1, List.mem_filter]
    simp [ht, expiredAt]
  · intro e he
    rw [(ManageInboundTunnels_effect env s).1, List.mem_filter]
    simp [he, expiredAt]
  · intro e he
    show e ∉ expireTransitLoop (env.now % 2 ^ 32) s.m_TransitTunnels.entries ↔ _
    rw [expireTransitLoop_eq, List.mem_filter]
    simp [he]

/-- Witness of C8 (amended): at time 601 the outbound tunnel of `agedTables`
created at 0 is removed. -/
theorem removed_iff_past_expiration_witness :
    outboundSample 0 10 false 0 (some 9) ∉
      (ManageOutboundTunnels (sampleEnv 601) agedTables).m_OutboundTunnels :=
  ((removed_iff_past_expiration (sampleEnv 601) agedTables).1
    (outboundSample 0 10 false 0 (some 9)) (by decide)).2 (by decide)

/-! ## Theorems: the pending sweep -/

theorem countBuilds_append (a b : List Event) :
    countBuilds (a ++ b) = countBuilds a + countBuilds b := by
  induction a with
  | nil => simp [countBuilds]
  | cons e rest ih =>
    cases e <;> simp [countBuilds, ih]
    omega

theorem countBuilds_pos_of_mem (evs : List Event) (t : Tunnel) (r : Nat) (o : Option Tunnel)
    (h : Event.Build t r o ∈ evs) : 0 < countBuilds evs := by
  induction evs with
  | nil => simp at h
  | cons e rest ih =>
    rcases List.mem_cons.1 h with h1 | h1
    · rw [← h1]; simp [countBuilds]
    · have := ih h1
      cases e <;> simp [countBuilds] <;> omega

theorem countBuilds_notifyExpired (t : Tunnel) : countBuilds (notifyExpired t) = 0 := by
  unfold notifyExpired
  cases t.m_Pool <;> simp [countBuilds]

theorem countBuilds_expireOutboundLoop (ts : Nat) (l : List Tunnel) :
    countBuilds (expireOutboundLoop ts l).2 = 0 := by
  induction l with
  | nil => simp [expireOutboundLoop, countBuilds]
  | cons it rest ih =>
    unfold expireOutboundLoop
    split_ifs
    · simp [countBuilds_append, countBuilds_notifyExpired, ih]
    · exact ih

theorem expireOutboundLoop_sublist (ts : Nat) (l : List Tunnel) :
    (expireOutboundLoop ts l).1.Sublist l := by
  rw [expireOutboundLoop_fst]
  exact List.filter_sublist _

theorem Steps.trans {a b c : Tunnels} (h1 : Steps a b) (h2 : Steps b c) : Steps a c := by
  induction h2 with
  | refl => exact h1
  | create kind config ob env _ ih => exact Steps.create kind config ob env (ih h1)
  | quiet s2 _ hn hp hh he ho hi ih => exact Steps.quiet s2 (ih h1) hn hp hh he ho hi

theorem Steps.foldl {α : Type} (f : Tunnels → α → Tunnels)
    (hf : ∀ acc a, Steps acc (f acc a)) (l : List α) (s : Tunnels) :
    Steps s (l.foldl f s) := by
  induction l generalizing s with
  | nil => exact Steps.refl s
  | cons a rest ih => exact Steps.trans (hf s a) (ih (f s a))

theorem ManageInboundTunnels_steps (env : Env) (s : Tunnels) :
    Steps s (ManageInboundTunnels env s) := by
  have h1 : Steps s { s with
      m_InboundTunnels :=
        ⟨(expireInboundLoop env.now s.m_InboundTunnels.entries).1,
          s.m_InboundTunnels.ordered.sublist (expireInboundLoop_sublist env.now _)⟩,
      trace := s.trace ++ (expireInboundLoop env.now s.m_InboundTunnels.entries).2 } :=
    Steps.quiet _ (Steps.refl s) rfl rfl rfl
      ⟨_, rfl, by rw [expireInboundLoop_snd]; exact countBuilds_expireOutboundLoop _ _⟩
      (List.Sublist.refl _) (expireInboundLoop_sublist _ _)
  unfold ManageInboundTunnels
  simp only []
  split_ifs
  · exact Steps.quiet _ (Steps.create _ _ _ _ h1) rfl rfl rfl
      ⟨[], by simp [CreateTunnelPool, CreateZeroHopsInboundTunnel], rfl⟩
      (List.Sublist.refl _) (List.Sublist.refl _)
  · exact Steps.create _ _ _ _ h1
  · exact Steps.create _ _ _ _ h1
  · exact h1

theorem ManageOutboundTunnels_steps (env : Env) (s : Tunnels) :
    Steps s (ManageOutboundTunnels env s) := by
  have h1 : Steps s { s with
      m_OutboundTunnels := (expireOutboundLoop env.now s.m_OutboundTunnels).1,
      trace := s.trace ++ (expireOutboundLoop env.now s.m_OutboundTunnels).2 } :=
    Steps.quiet _ (Steps.refl s) rfl rfl rfl
      ⟨_, rfl, countBuilds_expireOutboundLoop _ _⟩
      (expireOutboundLoop_sublist _ _) (List.Sublist.refl _)
  unfold ManageOutboundTunnels
  simp only []
  split_ifs
  · split
    · exact h1
    · exact Steps.create _ _ _ _ h1
  · exact h1

theorem ManageTransitTunnels_steps (env : Env) (s : Tunnels) :
    Steps s (ManageTransitTunnels env s) :=
  Steps.quiet _ (Steps.refl s) rfl rfl rfl ⟨[], by simp [ManageTransitTunnels], rfl⟩
    (List.Sublist.refl _) (List.Sublist.refl _)

theorem poolCreateTunnels_steps (env : Env) (pool : TunnelPool) (s : Tunnels) :
    Steps s (poolCreateTunnels env pool s) := by
  unfold poolCreateTunnels
  refine Steps.trans ?_ (Steps.foldl _ (fun acc b => Steps.create _ _ _ _ (Steps.refl acc)) _ _)
  exact Steps.quiet _ (Steps.refl s) rfl rfl rfl ⟨_, rfl, rfl⟩
    (List.Sublist.refl _) (List.Sublist.refl _)

theorem poolTestTunnels_steps (pool : TunnelPool) (s : Tunnels) :
    Steps s (poolTestTunnels pool s) :=
  Steps.quiet _ (Steps.refl s) rfl rfl rfl ⟨_, rfl, rfl⟩
    (List.Sublist.refl _) (List.Sublist.refl _)

theorem ManageTunnelPools_steps (env : Env) (s : Tunnels) :
    Steps s (ManageTunnelPools env s) :=
  Steps.foldl (fun acc (it : Nat × TunnelPool) => poolTestTunnels it.2 (poolCreateTunnels env it.2 acc))
    (fun acc it => Steps.trans (poolCreateTunnels_steps env it.2 acc) (poolTestTunnels_steps _ _))
    s.m_Pools.entries s

theorem ManageTunnels_steps (env : Env) (s : Tunnels) :
    Steps { s with m_PendingTunnels := StdMap.empty } (ManageTunnels env s) :=
  Steps.trans (Steps.trans (Steps.trans (ManageInboundTunnels_steps env _)
    (ManageOutboundTunnels_steps env _)) (ManageTransitTunnels_steps env _))
    (ManageTunnelPools_steps env _)

theorem buildsIssued_CreateTunnel (kind : TunnelKind) (config : TunnelConfig)
    (ob : Option Tunnel) (env : Env) (s : Tunnels) :
    buildsIssued (CreateTunnel kind config ob env s).2 = buildsIssued s + 1 := by
  unfold buildsIssued
  rw [CreateTunnel_trace, countBuilds_append]
  rfl

theorem CreateTunnel_pending_mem (kind : TunnelKind) (config : TunnelConfig)
    (ob : Option Tunnel) (env : Env) (s : Tunnels) (e : Nat × Tunnel)
    (he : e ∈ (CreateTunnel kind config ob env s).2.m_PendingTunnels.entries) :
    e = (s.m_NextReplyMsgID, (CreateTunnel kind config ob env s).1) ∨
      e ∈ s.m_PendingTunnels.entries :=
  mem_insertEntry _ _ _ _ he

theorem CounterInv_create (kind : TunnelKind) (config : TunnelConfig) (ob : Option Tunnel)
    (env : Env) (n0 : Nat) (s : Tunnels) (h : CounterInv n0 s) :
    CounterInv n0 (CreateTunnel kind config ob env s).2 := by
  obtain ⟨h1, h2, h3⟩ := h
  refine ⟨?_, ?_, ?_⟩
  · rw [buildsIssued_CreateTunnel]
    show (s.m_NextReplyMsgID + 1) % 2 ^ 32 = _
    rw [h1]
    omega
  · rw [buildsIssued_CreateTunnel]; omega
  · intro e he
    rw [buildsIssued_CreateTunnel]
    rcases CreateTunnel_pending_mem _ _ _ _ _ _ he with h | h
    · exact ⟨buildsIssued s, h2, by omega, by rw [h]; exact h1⟩
    · obtain ⟨j, hj1, hj2, hj3⟩ := h3 e h
      exact ⟨j, hj1, by omega, hj3⟩

theorem CounterInv_steps {s s' : Tunnels} (h : Steps s s') (n0 : Nat)
    (hinv : CounterInv n0 s) : CounterInv n0 s' := by
  induction h with
  | refl => exact hinv
  | create kind config ob env _ ih => exact CounterInv_create _ _ _ _ _ _ (ih hinv)
  | @quiet _ s1 s2 _ hn hp hh he _ _ ih =>
    obtain ⟨h1, h2, h3⟩ := ih hinv
    obtain ⟨evs, hevs, hcb⟩ := he
    have hb : buildsIssued s2 = buildsIssued s1 := by
      unfold buildsIssued
      rw [hevs, countBuilds_append, hcb]
      rfl
    refine ⟨by rw [hn, hb]; exact h1, by rw [hb]; exact h2, ?_⟩
    intro e he2
    rw [hp] at he2
    rw [hb]
    exact h3 e he2

theorem HeapInv_create (kind : TunnelKind) (config : TunnelConfig) (ob : Option Tunnel)
    (env : Env) (h0 : Nat) (pre : List Event) (s : Tunnels) (h : HeapInv h0 pre s) :
    HeapInv h0 pre (CreateTunnel kind config ob env s).2 := by
  obtain ⟨h1, evs, h2, h3⟩ := h
  refine ⟨?_, evs ++ [Event.Build (CreateTunnel kind config ob env s).1 s.m_NextReplyMsgID ob],
    ?_, ?_⟩
  · show h0 ≤ s.heapNext + 1
    omega
  · rw [CreateTunnel_trace, h2, List.append_assoc]
  · intro e he
    show h0 ≤ e.2.ptr ∧ e.2.ptr < s.heapNext + 1 ∧ _
    rcases CreateTunnel_pending_mem _ _ _ _ _ _ he with h | h
    · rw [h]
      refine ⟨h1, Nat.lt_succ_self _, ob, ?_⟩
      simp
    · obtain ⟨ha, hb, o, hc⟩ := h3 e h
      exact ⟨ha, by omega, o, List.mem_append_left _ hc⟩

theorem HeapInv_steps {s s' : Tunnels} (h : Steps s s') (h0 : Nat) (pre : List Event)
    (hinv : HeapInv h0 pre s) : HeapInv h0 pre s' := by
  induction h with
  | refl => exact hinv
  | create kind config ob env _ ih => exact HeapInv_create _ _ _ _ _ _ _ (ih hinv)
  | quiet s2 _ hn hp hh he _ _ ih =>
    obtain ⟨h1, evs, h2, h3⟩ := ih hinv
    obtain ⟨evs2, hevs, _⟩ := he
    refine ⟨by rw [hh]; exact h1, evs ++ evs2, by rw [hevs, h2, List.append_assoc], ?_⟩
    intro e he2
    rw [hp] at he2
    obtain ⟨ha, hb, o, hc⟩ := h3 e he2
    exact ⟨ha, by rw [hh]; exact hb, o, List.mem_append_left _ hc⟩

theorem Steps_tables {s s' : Tunnels} (h : Steps s s') :
    s'.m_OutboundTunnels.Sublist s.m_OutboundTunnels ∧
      s'.m_InboundTunnels.entries.Sublist s.m_InboundTunnels.entries := by
  induction h with
  | refl => exact ⟨List.Sublist.refl _, List.Sublist.refl _⟩
  | create kind config ob env _ ih => exact ih
  | quiet s2 _ _ _ _ _ ho hi ih => exact ⟨ho.trans ih.1, hi.trans ih.2⟩

theorem CounterInv_cleared (s : Tunnels) (n0 : Nat) (h : CounterInv n0 s) :
    CounterInv (buildsIssued s) { s with m_PendingTunnels := StdMap.empty } :=
  ⟨h.1, Nat.le_refl _, fun e he => by simp [StdMap.empty] at he⟩

theorem HeapInv_cleared (s : Tunnels) :
    HeapInv s.heapNext s.trace { s with m_PendingTunnels := StdMap.empty } :=
  ⟨Nat.le_refl _, [], by simp, fun e he => by simp [StdMap.empty] at he⟩

theorem HeapInv_weaken (h0 : Nat) (pre : List Event) (s : Tunnels) (h : HeapInv h0 pre s) :
    HeapInv 0 [] s := by
  obtain ⟨_, evs, h2, h3⟩ := h
  refine ⟨Nat.zero_le _, pre ++ evs, by simp [h2], ?_⟩
  intro e he
  obtain ⟨_, hb, o, hc⟩ := h3 e he
  exact ⟨Nat.zero_le _, hb, o, List.mem_append_right _ hc⟩

theorem CounterInv_weaken (n0 : Nat) (s : Tunnels) (h : CounterInv n0 s) : CounterInv 0 s := by
  obtain ⟨h1, _, h3⟩ := h
  refine ⟨h1, Nat.zero_le _, ?_⟩
  intro e he
  obtain ⟨j, _, hj2, hj3⟩ := h3 e he
  exact ⟨j, Nat.zero_le _, hj2, hj3⟩

theorem GetPendingTunnel_pending_subset (r : Nat) (s : Tunnels) (e : Nat × Tunnel)
    (he : e ∈ (GetPendingTunnel r s).2.m_PendingTunnels.entries) :
    e ∈ s.m_PendingTunnels.entries := by
  unfold GetPendingTunnel at he
  split at he
  · exact (List.eraseP_sublist _).subset he
  · exact he

theorem GetPendingTunnel_frame (r : Nat) (s : Tunnels) :
    (GetPendingTunnel r s).2.m_NextReplyMsgID = s.m_NextReplyMsgID ∧
    (GetPendingTunnel r s).2.heapNext = s.heapNext ∧
    (GetPendingTunnel r s).2.trace = s.trace ∧
    (GetPendingTunnel r s).2.m_OutboundTunnels = s.m_OutboundTunnels ∧
    (GetPendingTunnel r s).2.m_InboundTunnels = s.m_InboundTunnels := by
  unfold GetPendingTunnel
  split <;> exact ⟨rfl, rfl, rfl, rfl, rfl⟩

/-- What holds in every reachable state: the counter and heap bookkeeping of
the pending table, and empty outbound and inbound tables. -/
theorem Reachable_inv (s : Tunnels) (h : Reachable s) :
    CounterInv 0 s ∧ HeapInv 0 [] s ∧ s.m_OutboundTunnels = [] ∧
      s.m_InboundTunnels.entries = [] := by
  induction h with
  | fresh =>
    refine ⟨⟨rfl, Nat.le_refl _, fun e he => ?_⟩, ⟨Nat.le_refl _, [], rfl, fun e he => ?_⟩,
      rfl, rfl⟩
    · simp [Tunnels.fresh, StdMap.empty] at he
    · simp [Tunnels.fresh, StdMap.empty] at he
  | createTunnel kind config ob env s _ ih =>
    exact ⟨CounterInv_create _ _ _ _ _ _ ih.1, HeapInv_create _ _ _ _ _ _ _ ih.2.1,
      ih.2.2.1, ih.2.2.2⟩
  | getPending r s _ ih =>
    obtain ⟨⟨c1, c2, c3⟩, ⟨g1, evs, g2, g3⟩, ho, hi⟩ := ih
    obtain ⟨f1, f2, f3, f4, f5⟩ := GetPendingTunnel_frame r s
    have hb : buildsIssued (GetPendingTunnel r s).2 = buildsIssued s := by
      unfold buildsIssued; rw [f3]
    refine ⟨⟨by rw [f1, hb]; exact c1, Nat.zero_le _, ?_⟩,
      ⟨Nat.zero_le _, evs, by rw [f3]; exact g2, ?_⟩, by rw [f4]; exact ho,
      by rw [f5]; exact hi⟩
    · intro e he
      rw [hb]
      exact c3 e (GetPendingTunnel_pending_subset r s e he)
    · intro e he
      rw [f2]
      exact g3 e (GetPendingTunnel_pending_subset r s e he)
  | manage env s _ ih =>
    have hst := ManageTunnels_steps env s
    obtain ⟨ho, hi⟩ := Steps_tables hst
    refine ⟨CounterInv_weaken _ _ (CounterInv_steps hst _ (CounterInv_cleared s 0 ih.1)),
      HeapInv_weaken _ _ _ (HeapInv_steps hst _ _ (HeapInv_cleared s)), ?_, ?_⟩
    · have : (ManageTunnels env s).m_OutboundTunnels.Sublist [] := by
        rw [← ih.2.2.1]; exact ho
      exact List.sublist_nil.1 this
    · have : (ManageTunnels env s).m_InboundTunnels.entries.Sublist [] := by
        rw [← ih.2.2.2]; exact hi
      exact List.sublist_nil.1 this

/-- C9: in a state reached from a fresh manager by `CreateTunnel`,
`GetPendingTunnel` and `ManageTunnels`, let `(r, t)` be a pending entry when
`ManageTunnels` starts, with fewer than 2^32 builds issued by the end of the
tick. When the tick ends no pending entry has the key `r` or holds the object
`t` (the entries there were filed by the tick under other reply IDs), the
outbound list and the inbound table hold no tunnel at all, and
`GetPendingTunnel (r)` returns null and changes nothing. -/
theorem pending_entry_swept (env : Env) (s : Tunnels) (hs : Reachable s)
    (hbuilds : buildsIssued (ManageTunnels env s) < 2 ^ 32)
    (r : Nat) (t : Tunnel) (hrt : (r, t) ∈ s.m_PendingTunnels.entries) :
    (∀ e ∈ (ManageTunnels env s).m_PendingTunnels.entries, e.1 ≠ r ∧ e.2.ptr ≠ t.ptr) ∧
    (ManageTunnels env s).m_OutboundTunnels = [] ∧
    (ManageTunnels env s).m_InboundTunnels.entries = [] ∧
    GetPendingTunnel r (ManageTunnels env s) = (none, ManageTunnels env s) := by
  obtain ⟨hc, hh, _, _⟩ := Reachable_inv s hs
  obtain ⟨_, _, ho, hi⟩ := Reachable_inv _ (Reachable.manage env s hs)
  have hst := ManageTunnels_steps env s
  obtain ⟨_, _, c3⟩ := CounterInv_steps hst _ (CounterInv_cleared s 0 hc)
  obtain ⟨_, _, _, g3⟩ := HeapInv_steps hst _ _ (HeapInv_cleared s)
  obtain ⟨j0, _, hj0, hr⟩ := hc.2.2 (r, t) hrt
  obtain ⟨_, _, _, hg⟩ := hh
  have hptr : t.ptr < s.heapNext := (hg (r, t) hrt).2.1
  have hkeys : ∀ e ∈ (ManageTunnels env s).m_PendingTunnels.entries,
      e.1 ≠ r ∧ e.2.ptr ≠ t.ptr := by
    intro e he
    obtain ⟨j, hj1, hj2, hj3⟩ := c3 e he
    have hp := (g3 e he).1
    have hr' : r = (555 + j0) % 2 ^ 32 := hr
    refine ⟨?_, ?_⟩
    · rw [hj3, hr']
      omega
    · have : s.heapNext ≤ e.2.ptr := hp
      omega
  refine ⟨hkeys, ho, hi, ?_⟩
  apply GetPendingTunnel_of_find_none
  rw [find_eq_none_iff]
  intro v hv
  exact (hkeys (r, v) hv).1 rfl

/-- Witness of C9: one build pending under 555 when the tick starts. -/
theorem pending_entry_swept_witness :
    (∀ e ∈ (ManageTunnels (sampleEnv 100)
        (CreateTunnel TunnelKind.inbound [sampleHop 1 2 3] none (sampleEnv 90)
          Tunnels.fresh).2).m_PendingTunnels.entries,
      e.1 ≠ 555 ∧
        e.2.ptr ≠ (Tunnel.new 0 TunnelKind.inbound [sampleHop 1 2 3] 90 0).ptr) ∧
    (ManageTunnels (sampleEnv 100)
      (CreateTunnel TunnelKind.inbound [sampleHop 1 2 3] none (sampleEnv 90)
        Tunnels.fresh).2).m_OutboundTunnels = [] ∧
    (ManageTunnels (sampleEnv 100)
      (CreateTunnel TunnelKind.inbound [sampleHop 1 2 3] none (sampleEnv 90)
        Tunnels.fresh).2).m_InboundTunnels.entries = [] ∧
    GetPendingTunnel 555 (ManageTunnels (sampleEnv 100)
      (CreateTunnel TunnelKind.inbound [sampleHop 1 2 3] none (sampleEnv 90)
        Tunnels.fresh).2) =
      (none, ManageTunnels (sampleEnv 100)
        (CreateTunnel TunnelKind.inbound [sampleHop 1 2 3] none (sampleEnv 90)
          Tunnels.fresh).2) :=
  pending_entry_swept (sampleEnv 100)
    (CreateTunnel TunnelKind.inbound [sampleHop 1 2 3] none (sampleEnv 90) Tunnels.fresh).2
    (Reachable.createTunnel _ _ _ _ _ Reachable.fresh) (by decide) 555
    (Tunnel.new 0 TunnelKind.inbound [sampleHop 1 2 3] 90 0) (by decide)

/-- C10, counterexample: a fresh manager creates one tunnel and gets no
response; after the tick the pending table is not empty, it holds the
zero-hop inbound build that the tick issued under the reply ID 556. -/
theorem pending_not_empty_after_tick :
    (CreateTunnel TunnelKind.inbound [sampleHop 1 2 3] none (sampleEnv 90)
        Tunnels.fresh).2.m_PendingTunnels.entries.map (fun e => (e.1, e.2.ptr)) = [(555, 0)] ∧
    (ManageTunnels (sampleEnv 100)
      (CreateTunnel TunnelKind.inbound [sampleHop 1 2 3] none (sampleEnv 90)
        Tunnels.fresh).2).m_PendingTunnels.entries.map (fun e => (e.1, e.2.ptr)) =
      [(556, 1)] := by
  decide

/-- C10, amended: after a tunnel is created with `CreateTunnel` and no response
is delivered, one `ManageTunnels` leaves that tunnel out of the pending table;
what the table holds then was built by a `Build` call of the tick itself, so
it is empty when the tick issues no build. -/
theorem created_tunnel_swept (kind : TunnelKind) (config : TunnelConfig) (ob : Option Tunnel)
    (env0 env : Env) (s : Tunnels) :
    (∀ e ∈ (ManageTunnels env (CreateTunnel kind config ob env0 s).2).m_PendingTunnels.entries,
      e.2.ptr ≠ (CreateTunnel kind config ob env0 s).1.ptr) ∧
    ∃ evs, (ManageTunnels env (CreateTunnel kind config ob env0 s).2).trace =
        (CreateTunnel kind config ob env0 s).2.trace ++ evs ∧
      (∀ e ∈ (ManageTunnels env (CreateTunnel kind config ob env0 s).2).m_PendingTunnels.entries,
        ∃ o, Event.Build e.2 e.1 o ∈ evs) ∧
      (countBuilds evs = 0 →
        (ManageTunnels env (CreateTunnel kind config ob env0 s).2).m_PendingTunnels.entries
          = []) := by
  obtain ⟨_, evs, h2, h3⟩ :=
    HeapInv_steps (ManageTunnels_steps env (CreateTunnel kind config ob env0 s).2) _ _
      (HeapInv_cleared (CreateTunnel kind config ob env0 s).2)
  refine ⟨?_, evs, h2, fun e he => (h3 e he).2.2, ?_⟩
  · intro e he
    have h4 : (CreateTunnel kind config ob env0 s).2.heapNext ≤ e.2.ptr := (h3 e he).1
    have h5 : (CreateTunnel kind config ob env0 s).2.heapNext = s.heapNext + 1 := rfl
    have h6 : (CreateTunnel kind config ob env0 s).1.ptr = s.heapNext := rfl
    omega
  · intro hz
    cases hl : (ManageTunnels env (CreateTunnel kind config ob env0 s).2).m_PendingTunnels.entries
      with
    | nil => rfl
    | cons e rest =>
      obtain ⟨o, ho⟩ := (h3 e (by rw [hl]; exact List.mem_cons_self _ _)).2.2
      have := countBuilds_pos_of_mem _ _ _ _ ho
      omega

/-! ## Theorems: the build-response round trip -/

theorem functionCipher_computes {R : Type} (D : AESKey → AESKey → R → R) :
    (functionCipher D).Computes D := by
  intro st k v r
  rfl

theorem mapRange_length {R : Type} (f : R → R) (i n : Nat) (recs : List R) :
    (mapRange f i n recs).length = recs.length := by
  simp [mapRange]

theorem mapRange_zero {R : Type} (f : R → R) (i : Nat) (recs : List R) :
    mapRange f i 0 recs = recs := by
  apply List.ext_getElem?
  intro j
  simp only [mapRange, List.getElem?_mapIdx]
  cases recs[j]? with
  | none => rfl
  | some r =>
    have : ¬ (i ≤ j ∧ j < i + 0) := by omega
    simp [this]

theorem mapRange_set {R : Type} (f : R → R) (i n : Nat) (recs : List R) (r : R)
    (hr : recs[i]? = some r) :
    mapRange f (i + 1) n (recs.set i (f r)) = mapRange f i (n + 1) recs := by
  apply List.ext_getElem?
  intro j
  simp only [mapRange, List.getElem?_mapIdx, List.getElem?_set]
  by_cases hji : i = j
  · subst hji
    have hlt : i < recs.length := by
      by_contra hge
      rw [List.getElem?_eq_none (by omega)] at hr
      exact Option.noConfusion hr
    have h1 : ¬ (i + 1 ≤ i ∧ i < i + 1 + n) := by omega
    have h2 : i ≤ i ∧ i < i + (n + 1) := by omega
    simp [hlt, hr, h1, h2]
  · have hiff : (i + 1 ≤ j ∧ j < i + 1 + n) ↔ (i ≤ j ∧ j < i + (n + 1)) := by omega
    simp only [hji, if_false]
    cases recs[j]? with
    | none => rfl
    | some x => simp [hiff]

theorem decryptLoop_computes {R : Type} (C : CBCDecryption R) (D : AESKey → AESKey → R → R)
    (hC : C.Computes D) (st0 : C.State) (k v : AESKey) (n : Nat) :
    ∀ (i : Nat) (recs : List R), i + n ≤ recs.length →
      decryptLoop C n i (C.SetIV (C.SetKey st0 k) v) recs =
        some (C.SetIV (C.SetKey st0 k) v, mapRange (D k v) i n recs) := by
  induction n with
  | zero =>
    intro i recs _
    simp [decryptLoop, mapRange_zero]
  | succ n ih =>
    intro i recs h
    have hi : i < recs.length := by omega
    have hr : recs[i]? = some recs[i] := List.getElem?_eq_getElem hi
    simp only [decryptLoop, hr]
    rw [hC st0 k v recs[i]]
    rw [ih (i + 1) _ (by rw [List.length_set]; omega), mapRange_set _ _ _ _ _ hr]

theorem encryptLoop_reverse (dec : LayerTransform) (hops : List TunnelHopConfig)
    (x : List Nat) :
    encryptLoop dec hops.reverse x = hops.foldr (fun h y => dec h.decryption y) x := by
  have h : ∀ (l : List TunnelHopConfig) (y : List Nat),
      encryptLoop dec l y = l.foldl (fun z h => dec h.decryption z) y := by
    intro l
    induction l with
    | nil => intro y; rfl
    | cons hop rest ih => intro y; simp [encryptLoop, ih]
  rw [h, List.foldl_reverse]

theorem peel_layers (dec enc : LayerTransform) (hops : List TunnelHopConfig)
    (hinv : ∀ h ∈ hops, ∀ x, enc h.decryption (dec h.decryption x) = x) (x : List Nat) :
    hops.foldl (fun y h => enc h.decryption y) (hops.foldr (fun h y => dec h.decryption y) x)
      = x := by
  induction hops with
  | nil => rfl
  | cons h rest ih =>
    simp only [List.foldr_cons, List.foldl_cons]
    rw [hinv h (List.mem_cons_self _ _)]
    exact ih (fun h2 hh2 => hinv h2 (List.mem_cons_of_mem _ hh2))

theorem take_four_append (p x : List Nat) (hlen : 4 ≤ p.length) :
    (p.take 4 ++ x).take 4 = p.take 4 ∧ (p.take 4 ++ x).drop 4 = x := by
  have h4 : (p.take 4).length = 4 := by simp [List.length_take]; omega
  exact ⟨List.take_left' h4, List.drop_left' h4⟩

/-- C12: let every hop's layer transform `D_h` have a left inverse `E_h`. For a
tunnel data message of at least 4 bytes, peeling (the hops apply `E_h`, first
hop to endpoint) what `EncryptTunnelMsg` wrapped gives back the message
bit for bit, and `EncryptTunnelMsg` leaves the first 4 payload bytes as they
were. -/
theorem peel_wrap_roundtrip (dec enc : LayerTransform) (t : Tunnel) (msg : I2NPMessage)
    (hinv : ∀ h ∈ t.m_Config, ∀ x, enc h.decryption (dec h.decryption x) = x)
    (hlen : 4 ≤ msg.payload.length) :
    peel enc t.m_Config (EncryptTunnelMsg dec t msg) = msg ∧
    (EncryptTunnelMsg dec t msg).payload.take 4 = msg.payload.take 4 := by
  obtain ⟨h1, h2⟩ := take_four_append msg.payload
    (encryptLoop dec t.m_Config.reverse (msg.payload.drop 4)) hlen
  refine ⟨?_, h1⟩
  cases msg with
  | mk payload fromTunnel =>
    simp only [peel, EncryptTunnelMsg] at *
    rw [h1, h2, encryptLoop_reverse, peel_layers dec enc _ hinv, List.take_append_drop]

theorem xorLayer_involutive (d : TunnelDecryption) (x : List Nat) :
    xorLayer d (xorLayer d x) = x := by
  unfold xorLayer
  cases d.keys with
  | none => rfl
  | some kv =>
    simp only [List.map_map]
    conv_rhs => rw [← List.map_id x]
    apply List.map_congr_left
    intro b _
    simp only [Function.comp, id]
    rw [Nat.xor_cancel_right]

/-- Witness of C12: a message for tunnel ID 5 through the two-hop sample tunnel
with the xor toy transform. -/
theorem peel_wrap_roundtrip_witness :
    peel xorLayer twoHopTunnel.m_Config
        (EncryptTunnelMsg xorLayer twoHopTunnel { payload := [0, 0, 0, 5, 9, 8], fromTunnel := none })
      = { payload := [0, 0, 0, 5, 9, 8], fromTunnel := none } ∧
    (EncryptTunnelMsg xorLayer twoHopTunnel
        { payload := [0, 0, 0, 5, 9, 8], fromTunnel := none }).payload.take 4 =
      ({ payload := [0, 0, 0, 5, 9, 8], fromTunnel := none } : I2NPMessage).payload.take 4 :=
  peel_wrap_roundtrip xorLayer xorLayer twoHopTunnel
    { payload := [0, 0, 0, 5, 9, 8], fromTunnel := none }
    (fun h _ x => xorLayer_involutive h.decryption x) (by decide)

/-- C20, counterexample: in the two-hop sample tunnel the first hop has the
layer key 11 and the last hop 21. With the transform `b -> 2 * b + key`,
`HandleTunnelDataMsg` turns the byte 9 into `2 * (2 * 9 + 21) + 11 = 89`,
the last hop's transform applied first; applying the transforms from the
first hop to the last would give `2 * (2 * 9 + 11) + 21 = 79`. -/
theorem inbound_unwrap_not_first_to_last :
    (HandleTunnelDataMsg affineLayer twoHopTunnel
        { payload := [0, 0, 0, 5, 9], fromTunnel := none }).2.payload = [0, 0, 0, 5, 89] ∧
    [0, 0, 0, 5] ++ twoHopTunnel.m_Config.foldl (fun x h => affineLayer h.decryption x) [9]
      = [0, 0, 0, 5, 79] := by
  decide

/-- C20, amended: `HandleTunnelDataMsg` clears the failed flag, sets `from` to the
tunnel and hands the endpoint the message with the region behind the first 4
payload bytes transformed by the hops' ciphers in order from the last hop of
the configuration to the first, the order of `EncryptTunnelMsg`. -/
theorem HandleTunnelDataMsg_last_to_first (dec : LayerTransform) (t : Tunnel)
    (msg : I2NPMessage) :
    (HandleTunnelDataMsg dec t msg).2.payload =
      msg.payload.take 4 ++
        t.m_Config.reverse.foldl (fun x h => dec h.decryption x) (msg.payload.drop 4) ∧
    (HandleTunnelDataMsg dec t msg).2 =
      EncryptTunnelMsg dec t { msg with fromTunnel := some t.ptr } ∧
    (HandleTunnelDataMsg dec t msg).1 = { t with m_IsFailed := false } := by
  have hcfg : (if t.m_IsFailed = true then { t with m_IsFailed := false } else t).m_Config =
      t.m_Config := by
    split <;> rfl
  have hptr : (if t.m_IsFailed = true then { t with m_IsFailed := false } else t).ptr =
      t.ptr := by
    split <;> rfl
  refine ⟨?_, ?_, ?_⟩
  · simp only [HandleTunnelDataMsg, EncryptTunnelMsg, hcfg]
    rw [encryptLoop_reverse, List.foldl_reverse]
  · simp only [HandleTunnelDataMsg, EncryptTunnelMsg, hcfg, hptr]
  · simp only [HandleTunnelDataMsg]
    cases hf : t.m_IsFailed with
    | true => simp
    | false =>
      simp only [Bool.false_eq_true, if_false]
      cases t
      simp_all

/-! ## Theorems: dispatch -/

theorem be32_cons (b0 b1 b2 b3 : Nat) (rest : List Nat) :
    be32 (b0 :: b1 :: b2 :: b3 :: rest) = b0 * 2 ^ 24 + b1 * 2 ^ 16 + b2 * 2 ^ 8 + b3 := by
  simp [be32]

theorem drainQueue_length (dec : LayerTransform) (msgs : List I2NPMessage) :
    ∀ s : Tunnels, (drainQueue dec msgs s).1.length = msgs.length := by
  induction msgs with
  | nil => intro s; rfl
  | cons msg rest ih => intro s; simp [drainQueue, ih]

/-- C16: for a dequeued message whose payload starts with the bytes `b0 b1 b2 b3`
the worker looks up the ID `b0*2^24 + b1*2^16 + b2*2^8 + b3` and makes one
delivery: to the inbound tunnel registered under the ID when there is one,
whatever the transit table holds; else to the transit tunnel registered under
the ID; else the message is dropped and the manager is as before. Draining a
queue makes one delivery per message. -/
theorem dispatch_by_tunnel_id (dec : LayerTransform) (s : Tunnels) (b0 b1 b2 b3 : Nat)
    (rest : List Nat) (src : Option Nat) :
    (∀ t, (b0 * 2 ^ 24 + b1 * 2 ^ 16 + b2 * 2 ^ 8 + b3, t) ∈ s.m_InboundTunnels.entries →
      (dispatchMsg dec { payload := b0 :: b1 :: b2 :: b3 :: rest, fromTunnel := src } s).1 =
        Delivery.inbound
          (HandleTunnelDataMsg dec t
            { payload := b0 :: b1 :: b2 :: b3 :: rest, fromTunnel := src }).1
          (HandleTunnelDataMsg dec t
            { payload := b0 :: b1 :: b2 :: b3 :: rest, fromTunnel := src }).2) ∧
    ((∀ t, (b0 * 2 ^ 24 + b1 * 2 ^ 16 + b2 * 2 ^ 8 + b3, t) ∉ s.m_InboundTunnels.entries) →
      ∀ tt, (b0 * 2 ^ 24 + b1 * 2 ^ 16 + b2 * 2 ^ 8 + b3, tt) ∈ s.m_TransitTunnels.entries →
        dispatchMsg dec { payload := b0 :: b1 :: b2 :: b3 :: rest, fromTunnel := src } s =
          (Delivery.transit tt { payload := b0 :: b1 :: b2 :: b3 :: rest, fromTunnel := src },
            s)) ∧
    ((∀ t, (b0 * 2 ^ 24 + b1 * 2 ^ 16 + b2 * 2 ^ 8 + b3, t) ∉ s.m_InboundTunnels.entries) →
      (∀ tt, (b0 * 2 ^ 24 + b1 * 2 ^ 16 + b2 * 2 ^ 8 + b3, tt) ∉ s.m_TransitTunnels.entries) →
        dispatchMsg dec { payload := b0 :: b1 :: b2 :: b3 :: rest, fromTunnel := src } s =
          (Delivery.dropped (b0 * 2 ^ 24 + b1 * 2 ^ 16 + b2 * 2 ^ 8 + b3)
            { payload := b0 :: b1 :: b2 :: b3 :: rest, fromTunnel := src }, s)) ∧
    (∀ msgs : List I2NPMessage, (drainQueue dec msgs s).1.length = msgs.length) := by
  refine ⟨?_, ?_, ?_, fun msgs => drainQueue_length dec msgs s⟩
  · intro t ht
    have hf := find_of_mem _ _ _ ht
    simp only [dispatchMsg, be32_cons, GetInboundTunnel, hf]
  · intro hno tt htt
    have hf := (find_eq_none_iff _ _).2 hno
    have hf2 := find_of_mem _ _ _ htt
    simp only [dispatchMsg, be32_cons, GetInboundTunnel, GetTransitTunnel, hf, hf2]
  · intro hno hno2
    have hf := (find_eq_none_iff _ _).2 hno
    have hf2 := (find_eq_none_iff _ _).2 hno2
    simp only [dispatchMsg, be32_cons, GetInboundTunnel, GetTransitTunnel, hf, hf2]

/-- Witness of C16: a message for the ID 5 goes to the inbound tunnel registered
under 5 although a transit tunnel has the same ID. -/
theorem dispatch_by_tunnel_id_witness :
    (dispatchMsg affineLayer { payload := 0 :: 0 :: 0 :: 5 :: [9], fromTunnel := none }
        sharedIdTables).1 =
      Delivery.inbound
        (HandleTunnelDataMsg affineLayer (inboundSample 0 5 0 true 0)
          { payload := 0 :: 0 :: 0 :: 5 :: [9], fromTunnel := none }).1
        (HandleTunnelDataMsg affineLayer (inboundSample 0 5 0 true 0)
          { payload := 0 :: 0 :: 0 :: 5 :: [9], fromTunnel := none }).2 :=
  (dispatch_by_tunnel_id affineLayer sharedIdTables 0 0 0 5 [9] none).1
    (inboundSample 0 5 0 true 0) (by decide)

/-! ## Theorems: responses that are not well-formed -/

/-- C17, counterexample: the one-hop sample tunnel gets a response with
`msg[0] = 0` and `len = 1`: the count is outside `[1, 8]` and differs from the
hop count 1, yet the call returns true and the tunnel is established. -/
theorem empty_response_establishes :
    sampleTunnel.m_Config.length = 1 ∧
    (HandleTunnelBuildResponse (plainCipher (List Nat)) retByte sampleTunnel
        { num := 0, records := [] } 1).map
      (fun r => (r.2.2, r.1.m_IsEstablished)) = some (true, true) := by
  decide

/-- C17, amended: `HandleTunnelBuildResponse` makes no check of the message
against the tunnel. Its result is the same for every `len`; for a buffer that
holds the `msg[0]` records it returns true only if every one of them unwraps
to `ret = 0`, whatever `msg[0]` and the hop count are; and a response with
`msg[0] = 0` makes it return true and establish the tunnel. -/
theorem HandleTunnelBuildResponse_unchecked {R : Type} (C : CBCDecryption R)
    (ret : R → Nat) (t : Tunnel) (msg : BuildResponseMsg R) (len : Nat) :
    (∀ len2, HandleTunnelBuildResponse C ret t msg len2 =
      HandleTunnelBuildResponse C ret t msg len) ∧
    (msg.num ≤ msg.records.length →
      ∃ t' msg' b, HandleTunnelBuildResponse C ret t msg len = some (t', msg', b) ∧
        (b = true → ∀ i, i < msg.num → ∃ r, msg'.records[i]? = some r ∧ ret r = 0)) ∧
    (msg.num = 0 →
      ∃ t' msg', HandleTunnelBuildResponse C ret t msg len = some (t', msg', true) ∧
        t'.m_IsEstablished = true) := by
  refine ⟨fun len2 => rfl, ?_, ?_⟩
  · intro hbuf
    obtain ⟨st, recs, est, _, hres, hiff⟩ := HandleTunnelBuildResponse_run C ret t msg len hbuf
    exact ⟨_, _, est, hres, fun h => hiff.1 h⟩
  · intro h0
    obtain ⟨st, recs, est, _, hres, hiff⟩ :=
      HandleTunnelBuildResponse_run C ret t msg len (by omega)
    have hest : est = true := hiff.2 (fun i hi => by omega)
    subst hest
    exact ⟨_, _, hres, rfl⟩

/-- Witness of C17 (amended): the empty response for the one-hop sample tunnel. -/
theorem HandleTunnelBuildResponse_unchecked_witness :
    ∃ t' msg', HandleTunnelBuildResponse (plainCipher (List Nat)) retByte sampleTunnel
        { num := 0, records := [] } 1 = some (t', msg', true) ∧
      t'.m_IsEstablished = true :=
  (HandleTunnelBuildResponse_unchecked (plainCipher (List Nat)) retByte sampleTunnel
    { num := 0, records := [] } 1).2.2 rfl

/-! ## Theorems: issuing builds -/

theorem mem_insertEntry_self {V : Type} (k : Nat) (v : V) (l : List (Nat × V)) :
    (k, v) ∈ insertEntry k v l := by
  induction l with
  | nil => simp [insertEntry]
  | cons e rest ih =>
    unfold insertEntry
    split_ifs
    · exact List.mem_cons_self _ _
    · exact List.mem_cons_self _ _
    · exact List.mem_cons_of_mem _ ih

theorem mem_insertEntry_of_ne {V : Type} (k : Nat) (v : V) (l : List (Nat × V))
    (x : Nat × V) (hx : x ∈ l) (hne : x.1 ≠ k) : x ∈ insertEntry k v l := by
  induction l with
  | nil => simp at hx
  | cons e rest ih =>
    unfold insertEntry
    split_ifs with h1 h2
    · exact List.mem_cons_of_mem _ hx
    · rcases List.mem_cons.1 hx with h | h
      · exact absurd (by rw [h, h2]) hne
      · exact List.mem_cons_of_mem _ h
    · rcases List.mem_cons.1 hx with h | h
      · rw [h]; exact List.mem_cons_self _ _
      · exact List.mem_cons_of_mem _ (ih h)

theorem insertEntry_length_of_absent {V : Type} (k : Nat) (v : V) (l : List (Nat × V))
    (habs : ∀ v2, (k, v2) ∉ l) : (insertEntry k v l).length = l.length + 1 := by
  induction l with
  | nil => simp [insertEntry]
  | cons e rest ih =>
    unfold insertEntry
    split_ifs with h1 h2
    · simp
    · exact absurd (by rw [h2]; exact List.mem_cons_self _ _) (habs e.2)
    · simp [ih (fun v2 hv2 => habs v2 (List.mem_cons_of_mem _ hv2))]

theorem find_assign_self {V : Type} (m : StdMap V) (k : Nat) (v : V) :
    (m.assign k v).find k = some v :=
  find_of_mem _ _ _ (mem_insertEntry_self k v m.entries)

theorem requestRecordsLoop_cons_cons (rnd : Nat → Nat) (replyMsgID : Nat)
    (h0 h1 : TunnelHopConfig) (rest : List TunnelHopConfig) (n : Nat) :
    requestRecordsLoop rnd replyMsgID (h0 :: h1 :: rest) n =
      (h0, CreateBuildRequestRecord h0 (rnd n)) ::
        requestRecordsLoop rnd replyMsgID (h1 :: rest) (n + 1) := by
  rw [requestRecordsLoop]
  simp only [List.isEmpty_cons, Bool.false_eq_true, if_false]

theorem requestRecordsLoop_get (rnd : Nat → Nat) (replyMsgID : Nat)
    (hops : List TunnelHopConfig) :
    ∀ (n i : Nat) (hop : TunnelHopConfig), hops[i]? = some hop →
      (requestRecordsLoop rnd replyMsgID hops n)[i]? =
        some (hop, CreateBuildRequestRecord hop
          (if i + 1 < hops.length then rnd (n + i) else replyMsgID)) := by
  induction hops with
  | nil => intro n i hop h; simp at h
  | cons h0 rest ih =>
    intro n i hop h
    cases rest with
    | nil =>
      cases i with
      | zero =>
        simp only [List.getElem?_cons_zero, Option.some.injEq] at h
        subst h
        simp [requestRecordsLoop]
      | succ j => simp at h
    | cons h1 rest2 =>
      cases i with
      | zero =>
        simp only [List.getElem?_cons_zero, Option.some.injEq] at h
        subst h
        simp [requestRecordsLoop]
      | succ j =>
        simp only [List.getElem?_cons_succ] at h
        have := ih (n + 1) j hop h
        rw [requestRecordsLoop_cons_cons, List.getElem?_cons_succ, this]
        have hlen : (j + 1 < (h1 :: rest2).length) ↔ (j + 1 + 1 < (h0 :: h1 :: rest2).length) := by
          simp
        have harg : n + 1 + j = n + (j + 1) := by omega
        simp only [hlen, harg]

theorem FromFresh.of_steps {s s2 : Tunnels} (h : Steps s s2) (hs : FromFresh s) :
    FromFresh s2 := by
  induction h with
  | refl => exact hs
  | create kind config ob env _ ih => exact FromFresh.createTunnel _ _ _ _ _ (ih hs)
  | @quiet _ s1 s3 _ hn hp _ he _ _ ih =>
    exact FromFresh.other s1 s3 (ih hs) hn (fun e he2 => by rw [hp] at he2; exact he2) he

theorem FromFresh.quiet (s s2 : Tunnels) (hs : FromFresh s)
    (hn : s2.m_NextReplyMsgID = s.m_NextReplyMsgID)
    (hp : s2.m_PendingTunnels = s.m_PendingTunnels) (ht : s2.trace = s.trace) :
    FromFresh s2 :=
  FromFresh.other s s2 hs hn (fun e he => by rw [hp] at he; exact he)
    ⟨[], by rw [ht, List.append_nil], rfl⟩

theorem FromFresh.of_reachable (s : Tunnels) (h : Reachable s) : FromFresh s := by
  induction h with
  | fresh => exact FromFresh.fresh
  | createTunnel kind config ob env s _ ih => exact FromFresh.createTunnel _ _ _ _ _ ih
  | getPending r s _ ih =>
    obtain ⟨f1, _, f3, _, _⟩ := GetPendingTunnel_frame r s
    exact FromFresh.other s _ ih f1 (GetPendingTunnel_pending_subset r s)
      ⟨[], by rw [f3, List.append_nil], rfl⟩
  | manage env s _ ih =>
    exact FromFresh.of_steps (ManageTunnels_steps env s)
      (FromFresh.other s _ ih rfl (fun e he => by simp [StdMap.empty] at he)
        ⟨[], by simp, rfl⟩)

theorem FromFresh.getPendingTunnel (r : Nat) (s : Tunnels) (hs : FromFresh s) :
    FromFresh (GetPendingTunnel r s).2 := by
  obtain ⟨f1, _, f3, _, _⟩ := GetPendingTunnel_frame r s
  exact FromFresh.other s _ hs f1 (GetPendingTunnel_pending_subset r s)
    ⟨[], by rw [f3, List.append_nil], rfl⟩

theorem FromFresh.manageTunnels (env : Env) (s : Tunnels) (hs : FromFresh s) :
    FromFresh (ManageTunnels env s) :=
  FromFresh.of_steps (ManageTunnels_steps env s)
    (FromFresh.other s _ hs rfl (fun e he => by simp [StdMap.empty] at he) ⟨[], by simp, rfl⟩)

theorem FromFresh.manageInboundTunnels (env : Env) (s : Tunnels) (hs : FromFresh s) :
    FromFresh (ManageInboundTunnels env s) :=
  FromFresh.of_steps (ManageInboundTunnels_steps env s) hs

theorem FromFresh.manageOutboundTunnels (env : Env) (s : Tunnels) (hs : FromFresh s) :
    FromFresh (ManageOutboundTunnels env s) :=
  FromFresh.of_steps (ManageOutboundTunnels_steps env s) hs

theorem FromFresh.manageTunnelPools (env : Env) (s : Tunnels) (hs : FromFresh s) :
    FromFresh (ManageTunnelPools env s) :=
  FromFresh.of_steps (ManageTunnelPools_steps env s) hs

theorem FromFresh.addTransitTunnel (tunnel : TransitTunnel) (s : Tunnels) (hs : FromFresh s) :
    FromFresh (AddTransitTunnel tunnel s) :=
  FromFresh.quiet s _ hs rfl rfl rfl

theorem FromFresh.createTunnelPool (dest : IdentHash) (s : Tunnels) (hs : FromFresh s) :
    FromFresh (CreateTunnelPool dest s).2 :=
  FromFresh.quiet s _ hs rfl rfl rfl

theorem FromFresh.deleteTunnelPool (pool : Option TunnelPool) (s : Tunnels)
    (hs : FromFresh s) : FromFresh (DeleteTunnelPool pool s) := by
  cases pool with
  | none => exact hs
  | some p => exact FromFresh.quiet s _ hs rfl rfl rfl

theorem FromFresh.addOutboundTunnel (t : Tunnel) (s : Tunnels) (hs : FromFresh s) :
    FromFresh (AddOutboundTunnel t s) := by
  unfold AddOutboundTunnel
  cases t.m_Pool with
  | none => exact FromFresh.quiet s _ hs rfl rfl rfl
  | some pool => exact FromFresh.other s _ hs rfl (fun e he => he) ⟨_, rfl, rfl⟩

/-- The state in which `AddInboundTunnel` makes its call of `CreateTunnel`
(`Tunnel.cpp` line 494) is a state of the history. -/
theorem FromFresh.addInboundTunnel (t : Tunnel) (ind : Nat) (env : Env) (s : Tunnels)
    (hs : FromFresh s) : FromFresh (AddInboundTunnel t ind env s) := by
  have h1 : FromFresh { s with m_InboundTunnels := s.m_InboundTunnels.assign t.tunnelID t } :=
    FromFresh.quiet s _ hs rfl rfl rfl
  unfold AddInboundTunnel
  cases t.m_Pool with
  | none => exact FromFresh.createTunnel _ _ _ _ _ h1
  | some pool => exact FromFresh.other _ _ h1 rfl (fun e he => he) ⟨_, rfl, rfl⟩

theorem FromFresh.dispatchMsg (dec : LayerTransform) (msg : I2NPMessage) (s : Tunnels)
    (hs : FromFresh s) : FromFresh (dispatchMsg dec msg s).2 := by
  unfold i2p.tunnel.dispatchMsg
  simp only []
  split
  · exact FromFresh.quiet s _ hs rfl rfl rfl
  · split
    · exact hs
    · exact hs

theorem FromFresh.counter (s : Tunnels) (hs : FromFresh s) : CounterInv 0 s := by
  induction hs with
  | fresh => exact ⟨rfl, Nat.le_refl _, fun e he => by simp [Tunnels.fresh, StdMap.empty] at he⟩
  | createTunnel kind config ob env s _ ih => exact CounterInv_create _ _ _ _ _ _ ih
  | other s s2 _ hn hp he ih =>
    obtain ⟨h1, _, h3⟩ := ih
    obtain ⟨evs, hevs, hcb⟩ := he
    have hb : buildsIssued s2 = buildsIssued s := by
      unfold buildsIssued
      rw [hevs, countBuilds_append, hcb]
      rfl
    refine ⟨by rw [hn, hb]; exact h1, Nat.zero_le _, ?_⟩
    intro e he2
    rw [hb]
    exact h3 e (hp e he2)

theorem buildCalls_append (a b : List Event) :
    buildCalls (a ++ b) = buildCalls a ++ buildCalls b := by
  induction a with
  | nil => rfl
  | cons e rest ih => cases e <;> simp [buildCalls, ih]

theorem buildCalls_length (a : List Event) : (buildCalls a).length = countBuilds a := by
  induction a with
  | nil => rfl
  | cons e rest ih => cases e <;> simp [buildCalls, countBuilds, ih]

theorem buildCalls_of_no_builds (a : List Event) (h : countBuilds a = 0) :
    buildCalls a = [] := by
  apply List.eq_nil_of_length_eq_zero
  rw [buildCalls_length, h]

theorem FromFresh.calls (s : Tunnels) (hs : FromFresh s) :
    ∀ (k : Nat) (t : Tunnel) (r : Nat) (ob : Option Tunnel),
      (buildCalls s.trace)[k]? = some (t, r, ob) →
        r = (555 + k) % 2 ^ 32 ∧ t.m_IsEstablished = false ∧ t.m_IsFailed = false := by
  induction hs with
  | fresh => intro k t r ob h; simp [Tunnels.fresh, buildCalls] at h
  | createTunnel kind config ob0 env s hs0 ih =>
    intro k t r ob h
    rw [CreateTunnel_trace, buildCalls_append] at h
    by_cases hk : k < (buildCalls s.trace).length
    · rw [List.getElem?_append_left hk] at h
      exact ih k t r ob h
    · rw [List.getElem?_append_right (by omega)] at h
      have hk2 : k - (buildCalls s.trace).length = 0 := by
        by_contra hne
        have : (buildCalls [Event.Build (CreateTunnel kind config ob0 env s).1
            s.m_NextReplyMsgID ob0])[k - (buildCalls s.trace).length]? = none := by
          apply List.getElem?_eq_none
          simp [buildCalls]
          omega
        rw [this] at h
        exact Option.noConfusion h
      rw [hk2] at h
      simp only [buildCalls, List.getElem?_cons_zero, Option.some.injEq, Prod.mk.injEq] at h
      obtain ⟨ht, hr, _⟩ := h
      have hlen : (buildCalls s.trace).length = buildsIssued s := buildCalls_length _
      have hkeq : k = buildsIssued s := by omega
      refine ⟨?_, ?_, ?_⟩
      · rw [← hr, hkeq]
        exact (FromFresh.counter s hs0).1
      · rw [← ht]; rfl
      · rw [← ht]; rfl
  | other s s2 _ _ _ he ih =>
    intro k t r ob h
    obtain ⟨evs, hevs, hcb⟩ := he
    rw [hevs, buildCalls_append, buildCalls_of_no_builds evs hcb, List.append_nil] at h
    exact ih k t r ob h

/-- C13: take any state a manager gets into from a fresh one (by `CreateTunnel`
calls made by whichever function, and by steps that are no `CreateTunnel`
call) in which `k < 2^32` builds have been issued. Every `CreateTunnel` call
made so far, the `j`-th one counted from 0, called `Build` with the reply ID
`(555 + j) mod 2^32` on a tunnel that was not established and not failed. The
next `CreateTunnel` finds the counter at `(555 + k) mod 2^32`, files the new
tunnel (not established, not failed) under that ID, calls `Build` with the
same ID and leaves the counter at `(555 + k + 1) mod 2^32`; the ID was not the
key of an outstanding build, and the outstanding builds stay. In the records
`Build` makes with that ID, the last hop gets the ID as message ID and the
hop with index `i` before the last gets the `i`-th word drawn from the
generator. -/
theorem CreateTunnel_files_under_reply_id (kind : TunnelKind) (config : TunnelConfig)
    (ob : Option Tunnel) (env : Env) (s : Tunnels) (hs : FromFresh s)
    (hk : buildsIssued s < 2 ^ 32) :
    (∀ (j : Nat) (t : Tunnel) (r : Nat) (o : Option Tunnel),
      (buildCalls s.trace)[j]? = some (t, r, o) →
        r = (555 + j) % 2 ^ 32 ∧ t.m_IsEstablished = false ∧ t.m_IsFailed = false) ∧
    s.m_NextReplyMsgID = (555 + buildsIssued s) % 2 ^ 32 ∧
    (CreateTunnel kind config ob env s).2.m_PendingTunnels.find
        ((555 + buildsIssued s) % 2 ^ 32) = some (CreateTunnel kind config ob env s).1 ∧
    (CreateTunnel kind config ob env s).1.m_IsEstablished = false ∧
    (CreateTunnel kind config ob env s).1.m_IsFailed = false ∧
    (CreateTunnel kind config ob env s).1.m_Config = config ∧
    (CreateTunnel kind config ob env s).2.trace =
      s.trace ++ [Event.Build (CreateTunnel kind config ob env s).1
        ((555 + buildsIssued s) % 2 ^ 32) ob] ∧
    (CreateTunnel kind config ob env s).2.m_NextReplyMsgID =
      (555 + buildsIssued s + 1) % 2 ^ 32 ∧
    (∀ v, ((555 + buildsIssued s) % 2 ^ 32, v) ∉ s.m_PendingTunnels.entries) ∧
    (∀ e ∈ s.m_PendingTunnels.entries,
      e ∈ (CreateTunnel kind config ob env s).2.m_PendingTunnels.entries) ∧
    (∀ (rnd : Nat → Nat) (i : Nat) (hop : TunnelHopConfig), config[i]? = some hop →
      (requestRecordsLoop rnd ((555 + buildsIssued s) % 2 ^ 32) config 0)[i]? =
        some (hop, CreateBuildRequestRecord hop
          (if i + 1 < config.length then rnd i else (555 + buildsIssued s) % 2 ^ 32))) := by
  obtain ⟨h1, _, h3⟩ := FromFresh.counter s hs
  have hclash : ∀ v, ((555 + buildsIssued s) % 2 ^ 32, v) ∉ s.m_PendingTunnels.entries := by
    intro v hv
    obtain ⟨j, _, hj, hjk⟩ := h3 _ hv
    have : (555 + buildsIssued s) % 2 ^ 32 = (555 + j) % 2 ^ 32 := hjk
    omega
  refine ⟨FromFresh.calls s hs, h1, ?_, rfl, rfl, rfl, ?_, ?_, hclash, ?_, ?_⟩
  · rw [← h1]
    exact find_assign_self _ _ _
  · rw [CreateTunnel_trace, h1]
  · show (s.m_NextReplyMsgID + 1) % 2 ^ 32 = _
    rw [h1]
    omega
  · intro e he
    refine mem_insertEntry_of_ne _ _ _ e he ?_
    intro hek
    apply hclash e.2
    rw [← h1, ← hek]
    exact he
  · intro rnd i hop hi
    have := requestRecordsLoop_get rnd ((555 + buildsIssued s) % 2 ^ 32) config 0 i hop hi
    simpa using this

/-- Witness of C13: a fresh manager is given a pool-less inbound tunnel, so that
`AddInboundTunnel` issues the build 0 under the ID 555; the next `CreateTunnel`
files its tunnel under 556. -/
theorem CreateTunnel_files_under_reply_id_witness :
    (CreateTunnel TunnelKind.inbound twoHopTunnel.m_Config none (sampleEnv 100)
        (AddInboundTunnel (inboundSample 0 10 0 false 0) 0 (sampleEnv 100)
          Tunnels.fresh)).2.m_PendingTunnels.find
        ((555 + buildsIssued (AddInboundTunnel (inboundSample 0 10 0 false 0) 0
          (sampleEnv 100) Tunnels.fresh)) % 2 ^ 32) =
      some (CreateTunnel TunnelKind.inbound twoHopTunnel.m_Config none (sampleEnv 100)
        (AddInboundTunnel (inboundSample 0 10 0 false 0) 0 (sampleEnv 100)
          Tunnels.fresh)).1 :=
  (CreateTunnel_files_under_reply_id TunnelKind.inbound twoHopTunnel.m_Config none
    (sampleEnv 100)
    (AddInboundTunnel (inboundSample 0 10 0 false 0) 0 (sampleEnv 100) Tunnels.fresh)
    (FromFresh.addInboundTunnel _ _ _ _ FromFresh.fresh) (by decide)).2.2.1

/-- C14: after `AddInboundTunnel (t)` the lookup of `t`'s tunnel ID returns `t`.
When `t` has a pool, the one call made is `TunnelCreated (t)` on that pool and
the pending table and the reply-ID counter are as before. When `t` has no
pool, the one call made is the `Build` of a new outbound tunnel with the
inverted configuration of `t`, through the tunnel `GetNextOutboundTunnel`
returns; the new tunnel is filed under the current reply ID, the entries
under other IDs stay as they are, the table grows by one entry when that ID
was not outstanding, and the counter steps by one. -/
theorem AddInboundTunnel_spec (t : Tunnel) (ind : Nat) (env : Env) (s : Tunnels) :
    GetInboundTunnel t.tunnelID (AddInboundTunnel t ind env s) = some t ∧
    (∀ pool, t.m_Pool = some pool →
      (AddInboundTunnel t ind env s).trace = s.trace ++ [Event.TunnelCreated pool t] ∧
      (AddInboundTunnel t ind env s).m_PendingTunnels = s.m_PendingTunnels ∧
      (AddInboundTunnel t ind env s).m_NextReplyMsgID = s.m_NextReplyMsgID) ∧
    (t.m_Pool = none →
      ∃ b : Tunnel, b.kind = TunnelKind.outbound ∧ b.m_Config = env.invert t.m_Config ∧
        b.m_IsEstablished = false ∧ b.m_IsFailed = false ∧
        (AddInboundTunnel t ind env s).trace =
          s.trace ++ [Event.Build b s.m_NextReplyMsgID (GetNextOutboundTunnel ind s)] ∧
        (s.m_NextReplyMsgID, b) ∈ (AddInboundTunnel t ind env s).m_PendingTunnels.entries ∧
        (∀ e : Nat × Tunnel, e.1 ≠ s.m_NextReplyMsgID →
          (e ∈ (AddInboundTunnel t ind env s).m_PendingTunnels.entries ↔
            e ∈ s.m_PendingTunnels.entries)) ∧
        ((∀ v, (s.m_NextReplyMsgID, v) ∉ s.m_PendingTunnels.entries) →
          (AddInboundTunnel t ind env s).m_PendingTunnels.entries.length =
            s.m_PendingTunnels.entries.length + 1) ∧
        (AddInboundTunnel t ind env s).m_NextReplyMsgID =
          (s.m_NextReplyMsgID + 1) % 2 ^ 32) := by
  refine ⟨?_, ?_, ?_⟩
  · unfold AddInboundTunnel GetInboundTunnel
    cases t.m_Pool with
    | none => exact find_assign_self _ _ _
    | some pool => exact find_assign_self _ _ _
  · intro pool hp
    unfold AddInboundTunnel
    rw [hp]
    exact ⟨rfl, rfl, rfl⟩
  · intro hp
    unfold AddInboundTunnel
    rw [hp]
    refine ⟨_, rfl, rfl, rfl, rfl, rfl, mem_insertEntry_self _ _ _, ?_, ?_, rfl⟩
    · intro e he
      constructor
      · intro hmem
        rcases mem_insertEntry _ _ _ _ hmem with h | h
        · exact absurd (by rw [h]) he
        · exact h
      · intro hmem
        exact mem_insertEntry_of_ne _ _ _ e hmem he
    · intro habs
      exact insertEntry_length_of_absent _ _ _ habs

/-- Witness of C14: a pool-less inbound tunnel added to a fresh manager. -/
theorem AddInboundTunnel_spec_witness :
    ∃ b : Tunnel, b.kind = TunnelKind.outbound ∧
        b.m_Config = (sampleEnv 100).invert (inboundSample 0 10 0 false 0).m_Config ∧
        b.m_IsEstablished = false ∧ b.m_IsFailed = false ∧
        (AddInboundTunnel (inboundSample 0 10 0 false 0) 0 (sampleEnv 100) Tunnels.fresh).trace =
          Tunnels.fresh.trace ++ [Event.Build b Tunnels.fresh.m_NextReplyMsgID
            (GetNextOutboundTunnel 0 Tunnels.fresh)] ∧
        (Tunnels.fresh.m_NextReplyMsgID, b) ∈
          (AddInboundTunnel (inboundSample 0 10 0 false 0) 0 (sampleEnv 100)
            Tunnels.fresh).m_PendingTunnels.entries ∧
        (∀ e : Nat × Tunnel, e.1 ≠ Tunnels.fresh.m_NextReplyMsgID →
          (e ∈ (AddInboundTunnel (inboundSample 0 10 0 false 0) 0 (sampleEnv 100)
              Tunnels.fresh).m_PendingTunnels.entries ↔
            e ∈ Tunnels.fresh.m_PendingTunnels.entries)) ∧
        ((∀ v, (Tunnels.fresh.m_NextReplyMsgID, v) ∉ Tunnels.fresh.m_PendingTunnels.entries) →
          (AddInboundTunnel (inboundSample 0 10 0 false 0) 0 (sampleEnv 100)
              Tunnels.fresh).m_PendingTunnels.entries.length =
            Tunnels.fresh.m_PendingTunnels.entries.length + 1) ∧
        (AddInboundTunnel (inboundSample 0 10 0 false 0) 0 (sampleEnv 100)
            Tunnels.fresh).m_NextReplyMsgID =
          (Tunnels.fresh.m_NextReplyMsgID + 1) % 2 ^ 32 :=
  (AddInboundTunnel_spec (inboundSample 0 10 0 false 0) 0 (sampleEnv 100) Tunnels.fresh).2.2 rfl

/-! ## Theorems: replenishment -/

/-- C15, counterexample: a manager with exactly one inbound tunnel, no outbound
tunnel and no pool, where the inbound tunnel is failed: the tick at time 100
issues no outbound build (its only build is an inbound one). -/
theorem failed_inbound_no_outbound_build :
    oneFailedInbound.m_InboundTunnels.entries.length = 1 ∧
    oneFailedInbound.m_OutboundTunnels = [] ∧
    oneFailedInbound.m_Pools.entries = [] ∧
    countOutboundBuilds (ManageTunnels (sampleEnv 100) oneFailedInbound).trace = 0 ∧
    countBuilds (ManageTunnels (sampleEnv 100) oneFailedInbound).trace = 1 := by
  decide

theorem ManageTunnelPools_no_pools (env : Env) (s : Tunnels) (h : s.m_Pools.entries = []) :
    ManageTunnelPools env s = s := by
  unfold ManageTunnelPools
  rw [h]
  rfl

theorem StdMap.ext_entries {V : Type} (a b : StdMap V) (h : a.entries = b.entries) : a = b := by
  cases a
  cases b
  simp only [StdMap.mk.injEq]
  exact h

theorem ManageInboundTunnels_of_unexpired (env : Env) (s : Tunnels)
    (hloop : expireInboundLoop env.now s.m_InboundTunnels.entries =
      (s.m_InboundTunnels.entries, []))
    (hne : s.m_InboundTunnels.entries ≠ [])
    (hfew : s.m_OutboundTunnels = [] ∨ s.m_InboundTunnels.entries.length < 5) :
    ManageInboundTunnels env s =
      (CreateTunnel TunnelKind.inbound (env.newConfig [env.inboundPeer] none) none env s).2 := by
  have key : ({ s with
      m_InboundTunnels :=
        ⟨(expireInboundLoop env.now s.m_InboundTunnels.entries).1,
          s.m_InboundTunnels.ordered.sublist (expireInboundLoop_sublist env.now _)⟩,
      trace := s.trace ++ (expireInboundLoop env.now s.m_InboundTunnels.entries).2 } :
        Tunnels) = s := by
    cases s
    simp only [Tunnels.mk.injEq, true_and, and_true]
    refine ⟨StdMap.ext_entries _ _ ?_, ?_⟩
    · simp only [hloop]
    · simp only [hloop, List.append_nil]
  have he : s.m_InboundTunnels.isEmpty = false := by
    unfold StdMap.isEmpty
    cases hl : s.m_InboundTunnels.entries with
    | nil => exact absurd hl hne
    | cons _ _ => rfl
  have hc : (s.m_OutboundTunnels.isEmpty || decide (s.m_InboundTunnels.size < 5)) = true := by
    rcases hfew with h | h
    · simp [h]
    · simp [StdMap.size, h]
  let F : Tunnels → Tunnels := fun s1 =>
    if s1.m_InboundTunnels.isEmpty then
      if (CreateZeroHopsInboundTunnel env s1).m_ExploratoryPool.isNone then
        { (CreateTunnelPool env.ownRouter (CreateZeroHopsInboundTunnel env s1)).2 with
          m_ExploratoryPool :=
            some (CreateTunnelPool env.ownRouter (CreateZeroHopsInboundTunnel env s1)).1 }
      else CreateZeroHopsInboundTunnel env s1
    else if s1.m_OutboundTunnels.isEmpty || s1.m_InboundTunnels.size < 5 then
      (CreateTunnel TunnelKind.inbound (env.newConfig [env.inboundPeer] none) none env s1).2
    else s1
  have hF : ManageInboundTunnels env s = F { s with
      m_InboundTunnels :=
        ⟨(expireInboundLoop env.now s.m_InboundTunnels.entries).1,
          s.m_InboundTunnels.ordered.sublist (expireInboundLoop_sublist env.now _)⟩,
      trace := s.trace ++ (expireInboundLoop env.now s.m_InboundTunnels.entries).2 } := rfl
  rw [hF, key]
  simp only [F, he, hc, Bool.false_eq_true, if_false, if_true]

/-- C15, amended: in a manager with exactly one inbound tunnel, no outbound
tunnel and no registered pool, where the inbound tunnel is not failed and not
past its expiry at the tick (`now <= c + EXPIRATION`), one `ManageTunnels`
issues exactly one outbound build: the calls of the tick are the `Build` of
an inbound tunnel followed by the `Build` of an outbound tunnel whose
configuration is made from the outbound peer and the inbound tunnel's
configuration. -/
theorem one_outbound_build_per_tick (env : Env) (s : Tunnels) (k : Nat) (t : Tunnel)
    (hin : s.m_InboundTunnels.entries = [(k, t)]) (hout : s.m_OutboundTunnels = [])
    (hpools : s.m_Pools.entries = []) (hlive : t.m_IsFailed = false)
    (hfresh : env.now ≤ t.creationTime + TUNNEL_EXPIRATION_TIMEOUT) :
    ∃ (bi bo : Tunnel) (ri ro : Nat),
      (ManageTunnels env s).trace =
        s.trace ++ [Event.Build bi ri none, Event.Build bo ro none] ∧
      bi.kind = TunnelKind.inbound ∧ bo.kind = TunnelKind.outbound ∧
      bo.m_Config = env.newConfig [env.outboundPeer] (some t.m_Config) ∧
      countOutboundBuilds [Event.Build bi ri none, Event.Build bo ro none] = 1 := by
  have hexp : ¬ env.now > t.creationTime + TUNNEL_EXPIRATION_TIMEOUT := by omega
  have hloop : expireInboundLoop env.now s.m_InboundTunnels.entries = ([(k, t)], []) := by
    rw [hin]
    simp [expireInboundLoop, hexp]
  have hnext : nextInboundLoop [(k, t)] none 0 = some t := by
    simp [nextInboundLoop, hlive]
  have h1 : ManageInboundTunnels env { s with m_PendingTunnels := StdMap.empty } =
      (CreateTunnel TunnelKind.inbound (env.newConfig [env.inboundPeer] none) none env
        { s with m_PendingTunnels := StdMap.empty }).2 :=
    ManageInboundTunnels_of_unexpired env _ (by rw [hloop, hin]) (by rw [hin]; simp)
      (Or.inl hout)
  have h2 : ManageOutboundTunnels env
      (CreateTunnel TunnelKind.inbound (env.newConfig [env.inboundPeer] none) none env
        { s with m_PendingTunnels := StdMap.empty }).2 =
      (CreateTunnel TunnelKind.outbound
        (env.newConfig [env.outboundPeer] (some t.m_Config)) none env
        (CreateTunnel TunnelKind.inbound (env.newConfig [env.inboundPeer] none) none env
          { s with m_PendingTunnels := StdMap.empty }).2).2 := by
    unfold ManageOutboundTunnels
    simp only [CreateTunnel_outbound, hout, expireOutboundLoop, List.length_nil,
      Nat.zero_lt_succ, if_true, List.append_nil, GetNextInboundTunnel, CreateTunnel_inbound,
      hin, hnext]
    rfl
  have h3 : ManageTunnels env s = ManageTransitTunnels env
      (CreateTunnel TunnelKind.outbound
        (env.newConfig [env.outboundPeer] (some t.m_Config)) none env
        (CreateTunnel TunnelKind.inbound (env.newConfig [env.inboundPeer] none) none env
          { s with m_PendingTunnels := StdMap.empty }).2).2 := by
    unfold ManageTunnels
    simp only []
    rw [h1, h2]
    exact ManageTunnelPools_no_pools _ _ hpools
  refine ⟨(CreateTunnel TunnelKind.inbound (env.newConfig [env.inboundPeer] none) none env
      { s with m_PendingTunnels := StdMap.empty }).1,
    (CreateTunnel TunnelKind.outbound
      (env.newConfig [env.outboundPeer] (some t.m_Config)) none env
      (CreateTunnel TunnelKind.inbound (env.newConfig [env.inboundPeer] none) none env
        { s with m_PendingTunnels := StdMap.empty }).2).1,
    s.m_NextReplyMsgID, (s.m_NextReplyMsgID + 1) % 2 ^ 32, ?_, rfl, rfl, rfl, ?_⟩
  · rw [h3]
    show (CreateTunnel TunnelKind.outbound _ none env _).2.trace = _
    rw [CreateTunnel_trace, CreateTunnel_trace, List.append_assoc]
    rfl
  · simp [countOutboundBuilds, CreateTunnel, Tunnel.new]

/-- Witness of C15 (amended): the tick at time 100 on a manager whose one inbound
tunnel is live. -/
theorem one_outbound_build_per_tick_witness :
    ∃ (bi bo : Tunnel) (ri ro : Nat),
      (ManageTunnels (sampleEnv 100) oneLiveInbound).trace =
        oneLiveInbound.trace ++ [Event.Build bi ri none, Event.Build bo ro none] ∧
      bi.kind = TunnelKind.inbound ∧ bo.kind = TunnelKind.outbound ∧
      bo.m_Config = (sampleEnv 100).newConfig [(sampleEnv 100).outboundPeer]
        (some (inboundSample 0 10 0 false 0).m_Config) ∧
      countOutboundBuilds [Event.Build bi ri none, Event.Build bo ro none] = 1 :=
  one_outbound_build_per_tick (sampleEnv 100) oneLiveInbound 10 (inboundSample 0 10 0 false 0)
    rfl rfl rfl rfl (by decide)

/-! ## Theorems: layering of the build request -/

set_option maxRecDepth 100000 in
/-- C18, counterexample: `Build` on the three-hop sample tunnel with symbolic
records. Record 0 leaves untouched, record 1 is decrypted under hop 0 only
and record 2 under hop 1, then hop 0: the hop with index `i` decrypts the
records `i+1, ..., N-1`. Decrypting the records `i, ..., N-1` would touch
record 0 under hop 0 and record 1 under hop 1. -/
theorem build_layers_start_after_hop :
    (Build (functionCipher tagDecrypt) tagElGamal (fun n => n) threeHopTunnel 555).map
        (fun m => m.records) =
      some [(0, []), (1, [(7, 1)]), (2, [(17, 2), (7, 1)])] ∧
    layering tagDecrypt (fun i => i) threeHopTunnel.m_Config [(0, []), (1, []), (2, [])] =
      [(0, [(7, 1)]), (1, [(17, 2), (7, 1)]), (2, [(17, 2), (7, 1)])] := by
  decide

theorem preDecryptLoop_computes {R : Type} (C : CBCDecryption R)
    (D : AESKey → AESKey → R → R) (hC : C.Computes D) (numRecords : Nat)
    (prevs : List TunnelHopConfig) :
    ∀ (ind : Nat) (st : C.State) (recs : List R), ind ≤ numRecords →
      numRecords ≤ recs.length →
      ∃ st2, preDecryptLoop C numRecords prevs ind st recs =
        some (st2, layerFrom D numRecords prevs ind recs) := by
  induction prevs with
  | nil => intro ind st recs _ _; exact ⟨st, rfl⟩
  | cons hop prevs ih =>
    intro ind st recs hind hlen
    obtain ⟨st2, hst2⟩ := ih (ind - 1) (C.SetIV (C.SetKey st hop.replyKey) hop.replyIV)
      (mapRange (D hop.replyKey hop.replyIV) ind (numRecords - ind) recs) (by omega)
      (by rw [mapRange_length]; exact hlen)
    refine ⟨st2, ?_⟩
    simp only [preDecryptLoop, layerFrom]
    rw [decryptLoop_computes C D hC st hop.replyKey hop.replyIV (numRecords - ind) ind recs
      (by omega)]
    exact hst2

theorem layerFrom_eq_passes {R : Type} (D : AESKey → AESKey → R → R)
    (hops pre : List TunnelHopConfig) :
    ∀ (rest : List TunnelHopConfig) (recs : List R), hops = pre ++ rest →
      layerFrom D hops.length pre.reverse pre.length recs =
        (List.range pre.length).reverse.foldl
          (fun rs i =>
            match hops[i]? with
            | some hop =>
              mapRange (D hop.replyKey hop.replyIV) (i + 1) (hops.length - (i + 1)) rs
            | none => rs)
          recs := by
  induction pre using List.reverseRecOn with
  | nil => intro rest recs _; rfl
  | append_singleton pre h ih =>
    intro rest recs hh
    have hget : hops[pre.length]? = some h := by
      rw [hh, List.append_assoc, List.getElem?_append_right (Nat.le_refl _)]
      simp
    rw [List.reverse_append, List.reverse_singleton, List.singleton_append,
      List.length_append, List.length_singleton, List.range_succ, List.reverse_append,
      List.reverse_singleton, List.singleton_append, List.foldl_cons]
    simp only [layerFrom, hget, Nat.add_sub_cancel]
    exact ih (h :: rest) _ (by rw [hh, List.append_assoc]; rfl)

theorem requestRecordsLoop_length (rnd : Nat → Nat) (replyMsgID : Nat)
    (hops : List TunnelHopConfig) :
    ∀ n, (requestRecordsLoop rnd replyMsgID hops n).length = hops.length := by
  induction hops with
  | nil => intro n; rfl
  | cons h0 rest ih =>
    intro n
    cases rest with
    | nil => simp [requestRecordsLoop]
    | cons h1 rest2 =>
      rw [requestRecordsLoop_cons_cons, List.length_cons, ih (n + 1)]
      rfl

theorem Build_computes {R : Type} (C : CBCDecryption R) (D : AESKey → AESKey → R → R)
    (hC : C.Computes D) (elGamal : IdentHash → I2NPBuildRequestRecordClearText → R)
    (rnd : Nat → Nat) (t : Tunnel) (replyMsgID : Nat) (pre : List TunnelHopConfig)
    (b : TunnelHopConfig) (hcfg : t.m_Config = pre ++ [b]) :
    Build C elGamal rnd t replyMsgID =
      some { num := t.m_Config.length % 256,
             records := layerFrom D t.m_Config.length pre.reverse pre.length
               ((requestRecordsLoop rnd replyMsgID t.m_Config 0).map
                 (fun hc => elGamal hc.1.router hc.2)) } := by
  have hlen : t.m_Config.length = pre.length + 1 := by rw [hcfg]; simp
  obtain ⟨st2, hst2⟩ := preDecryptLoop_computes C D hC t.m_Config.length pre.reverse
    pre.length C.init
    ((requestRecordsLoop rnd replyMsgID t.m_Config 0).map (fun hc => elGamal hc.1.router hc.2))
    (by omega) (by rw [List.length_map, requestRecordsLoop_length])
  have hrev : t.m_Config.reverse = b :: pre.reverse := by rw [hcfg]; simp
  unfold Build
  simp only [hrev]
  have hind : t.m_Config.length - 1 = pre.length := by omega
  rw [hind, hst2]

theorem config_concat (config : TunnelConfig) (h : config ≠ []) :
    ∃ pre b, config = pre ++ [b] := by
  rcases List.eq_nil_or_concat config with h1 | ⟨pre, b, h1⟩
  · exact absurd h1 h
  · exact ⟨pre, b, by rw [h1, List.concat_eq_append]⟩

/-- C18, amended: let the cipher object decrypt every record under the key and
IV last loaded (`D`). On a configuration of N >= 1 hops `Build` returns its
message, and the records of the message are the ElGamal-encrypted records
after this layering: for each hop with index `i` from `N-2` down to 0, the
records with the indices `i+1, ..., N-1` are decrypted in place once under
that hop's reply key and reply IV (the last hop pre-decrypts nothing, and no
hop decrypts its own record). -/
theorem build_layering_ranges {R : Type} (C : CBCDecryption R)
    (D : AESKey → AESKey → R → R) (elGamal : IdentHash → I2NPBuildRequestRecordClearText → R)
    (rnd : Nat → Nat) (t : Tunnel) (replyMsgID : Nat) (hC : C.Computes D)
    (hN : t.m_Config ≠ []) :
    Build C elGamal rnd t replyMsgID =
      some { num := t.m_Config.length % 256,
             records := layering D (fun i => i + 1) t.m_Config
               ((requestRecordsLoop rnd replyMsgID t.m_Config 0).map
                 (fun hc => elGamal hc.1.router hc.2)) } := by
  obtain ⟨pre, b, hcfg⟩ := config_concat t.m_Config hN
  rw [Build_computes C D hC elGamal rnd t replyMsgID pre b hcfg,
    layerFrom_eq_passes D t.m_Config pre [b] _ hcfg]
  have hlen : t.m_Config.length - 1 = pre.length := by rw [hcfg]; simp
  unfold layering
  rw [hlen]

set_option maxRecDepth 100000 in
/-- Witness of C18 (amended): the three-hop sample tunnel with symbolic records. -/
theorem build_layering_ranges_witness :
    Build (functionCipher tagDecrypt) tagElGamal (fun n => n) threeHopTunnel 555 =
      some { num := threeHopTunnel.m_Config.length % 256,
             records := layering tagDecrypt (fun i => i + 1) threeHopTunnel.m_Config
               ((requestRecordsLoop (fun n => n) 555 threeHopTunnel.m_Config 0).map
                 (fun hc => tagElGamal hc.1.router hc.2)) } :=
  build_layering_ranges (functionCipher tagDecrypt) tagDecrypt tagElGamal (fun n => n)
    threeHopTunnel 555 (functionCipher_computes tagDecrypt) (by decide)

theorem FromFresh.drainQueue (dec : LayerTransform) (msgs : List I2NPMessage) :
    ∀ s : Tunnels, FromFresh s → FromFresh (drainQueue dec msgs s).2 := by
  induction msgs with
  | nil => intro s hs; exact hs
  | cons msg rest ih =>
    intro s hs
    exact ih _ (FromFresh.dispatchMsg dec msg s hs)

end tunnel
end i2p
